import Mathlib

/-!
Verification of the companion-module loading and rendering pipeline of
handlebars-preview-plus: a shallow embedding of templateRecipeLoader
(loadTemplateRecipe, resolveRecipe, mergeRecipes, resolveMaybeFactory,
resolvePartials, findOverride, resolveRelativeToModule,
isPartialFileReference), tsCompiler (getCompilerContext,
isWithinDirectory) and templateRenderer (renderTemplate), together with
theorems checking the documented behavior against the embedding.

External effects (the filesystem, the node module system, the TypeScript
compiler services and the Handlebars engine) are modeled as explicit
oracle parameters; functions authored by companion-module users are
modeled by their awaited results, since the loader only ever invokes them
once with the ProcessingContext and awaits the outcome.
-/

namespace HPP

/-! ### POSIX path model

The extension manipulates paths with the node path module. We model the
POSIX flavor of isAbsolute, normalize, resolve, dirname and relative over
plain strings. Trailing-slash preservation of node normalize and the
resolution of relative bases against the process working directory are
not modeled; the theorems that need an absolute base state it as a
hypothesis. -/

/-- Model of path.isAbsolute for POSIX: the first character is a slash. -/
def isAbsolute (p : String) : Bool :=
  match p.data with
  | [] => false
  | c :: _ => c == '/'

/-- Splits a list of characters at every slash, keeping empty segments,
matching the behavior of splitting a path string on the separator. -/
def splitSegsAux : List Char → List Char → List String
  | [], acc => [String.mk acc.reverse]
  | c :: rest, acc =>
    if c == '/' then String.mk acc.reverse :: splitSegsAux rest []
    else splitSegsAux rest (c :: acc)

/-- Segments of a path string, split on the slash separator. -/
def splitSegs (p : String) : List String := splitSegsAux p.data []

/-- Joins segments with slashes. -/
def joinSegs : List String → String
  | [] => ""
  | [s] => s
  | s :: rest => s ++ "/" ++ joinSegs rest

/-- One step of dot-segment processing: a double dot pops the previous
segment (at the root of an absolute path it is absorbed; in a relative
path with no previous segment it is kept), anything else is pushed. The
stack holds the processed segments in reverse. -/
def dotSegStep (abs : Bool) (stack : List String) (seg : String) : List String :=
  if seg == ".." then
    match stack with
    | [] => if abs then [] else [".."]
    | t :: rest => if t == ".." then seg :: t :: rest else rest
  else seg :: stack

/-- Removes empty and single-dot segments, then processes double dots. -/
def normSegsOf (abs : Bool) (segs : List String) : List String :=
  ((segs.filter (fun s => !(s == "") && !(s == "."))).foldl (dotSegStep abs) []).reverse

/-- Model of path.normalize (POSIX). -/
def normPath (p : String) : String :=
  if p == "" then "."
  else
    let abs := isAbsolute p
    let out := normSegsOf abs (splitSegs p)
    if abs then "/" ++ joinSegs out
    else if out.isEmpty then "." else joinSegs out

/-- Model of path.resolve as used by this codebase: the target, when
absolute, wins; otherwise it is joined onto the base and normalized. The
process working directory is not modeled, so a relative base yields a
relative result. -/
def resolvePath (base target : String) : String :=
  if isAbsolute target then normPath target
  else normPath (base ++ "/" ++ target)

/-- Model of path.dirname (POSIX) for the slash-separated file paths this
codebase passes to it. -/
def dirname (p : String) : String :=
  let segs := splitSegs p
  let front := segs.dropLast
  if front.isEmpty then "."
  else if front == [""] then "/"
  else joinSegs front

/-- Normalized segments of a path treated as absolute. -/
def absSegsOf (p : String) : List String := normSegsOf true (splitSegs p)

/-- Drops the longest common leading run of two segment lists. -/
def dropCommonPre : List String → List String → List String × List String
  | a :: as, b :: bs => if a == b then dropCommonPre as bs else (a :: as, b :: bs)
  | as, bs => (as, bs)

/-- Model of path.relative (POSIX) for absolute arguments: double dots up
to the common ancestor, then down to the target. -/
def relativePath (fromP toP : String) : String :=
  let pair := dropCommonPre (absSegsOf fromP) (absSegsOf toP)
  joinSegs (pair.1.map (fun _ => "..") ++ pair.2)

/-- Boolean string comparison of leading characters, modeling the
String.prototype.startsWith calls of the source. -/
def strStartsWith (s pat : String) : Bool := pat.data.isPrefixOf s.data

/-- Model of isWithinDirectory of tsCompiler.ts and isPathWithin of the
loader: empty relative path means equal, otherwise the relative path must
not climb out or be absolute. -/
def isWithinDirectory (filePath directory : String) : Bool :=
  let rel := relativePath directory filePath
  if rel == "" then true
  else !(strStartsWith rel "..") && !(isAbsolute rel)

/-- True when the string is empty or all whitespace; the watch-file
filter of the loader keeps exactly the strings where this is false,
matching the trimmed-length check. -/
def isBlankStr (s : String) : Bool := s.data.all (fun c => c.isWhitespace)

/-- Worker for dedupFirst carrying the set of already emitted elements. -/
def dedupFirstAux : List String → List String → List String
  | [], _ => []
  | x :: xs, seen =>
    if seen.contains x then dedupFirstAux xs seen
    else x :: dedupFirstAux xs (x :: seen)

/-- Deduplication keeping the first occurrence of each element, the
observable behavior of building a Set from an array and converting back. -/
def dedupFirst (l : List String) : List String := dedupFirstAux l []

theorem mem_dedupFirstAux {a : String} :
    ∀ {l seen : List String}, a ∈ dedupFirstAux l seen ↔ a ∈ l ∧ a ∉ seen := by
  intro l
  induction l with
  | nil => intro seen; simp [dedupFirstAux]
  | cons x xs ih =>
    intro seen
    rw [dedupFirstAux]
    by_cases hx : seen.contains x
    · have hxm : x ∈ seen := by simpa using hx
      simp only [hx, if_true, ih, List.mem_cons]
      constructor
      · rintro ⟨h1, h2⟩; exact ⟨Or.inr h1, h2⟩
      · rintro ⟨h1 | h1, h2⟩
        · exact absurd (h1 ▸ hxm) h2
        · exact ⟨h1, h2⟩
    · have hxm : x ∉ seen := by simpa using hx
      rw [if_neg hx]
      by_cases hax : a = x
      · subst hax
        simp [hxm]
      · simp only [List.mem_cons, hax, false_or, ih]

theorem mem_dedupFirst {a : String} {l : List String} : a ∈ dedupFirst l ↔ a ∈ l := by
  rw [dedupFirst, mem_dedupFirstAux]
  simp

theorem isAbsolute_slash_append (s : String) : isAbsolute ("/" ++ s) = true := by
  cases s
  rfl

theorem isAbsolute_append (a b : String) (h : isAbsolute a = true) :
    isAbsolute (a ++ b) = true := by
  cases a with
  | mk d =>
    cases b with
    | mk e =>
      cases d with
      | nil => simp [isAbsolute] at h
      | cons c cs =>
        simp only [isAbsolute] at h ⊢
        exact h

theorem not_isAbsolute_empty : isAbsolute "" = false := rfl

theorem isAbsolute_ne_empty {p : String} (h : isAbsolute p = true) : ¬(p == "") = true := by
  intro he
  have he2 : p = "" := by simpa using he
  subst he2
  simp [isAbsolute] at h

theorem isAbsolute_normPath {p : String} (h : isAbsolute p = true) :
    isAbsolute (normPath p) = true := by
  rw [normPath, if_neg (by simpa using isAbsolute_ne_empty h)]
  simp only [h, if_true]
  exact isAbsolute_slash_append _

theorem isAbsolute_resolvePath (base target : String) (h : isAbsolute base = true) :
    isAbsolute (resolvePath base target) = true := by
  rw [resolvePath]
  by_cases ht : isAbsolute target = true
  · rw [if_pos ht]
    exact isAbsolute_normPath ht
  · rw [if_neg ht]
    exact isAbsolute_normPath (isAbsolute_append _ _ (isAbsolute_append _ _ h))

theorem not_isBlankStr_of_isAbsolute {p : String} (h : isAbsolute p = true) :
    isBlankStr p = false := by
  cases p with
  | mk d =>
    cases d with
    | nil => simp [isAbsolute] at h
    | cons c cs =>
      simp only [isAbsolute] at h
      have h2 : c = '/' := by simpa using h
      subst h2
      simp [isBlankStr, Char.isWhitespace]

example : normPath "/m/../y" = "/y" := by decide
example : normPath "/m/x/./z" = "/m/x/z" := by decide
example : dirname "/m/mod.js" = "/m" := by decide
example : dirname "/a" = "/" := by decide
example : dirname "mod.js" = "." := by decide
example : resolvePath "/m" "../y" = "/y" := by decide
example : relativePath "/p/src" "/p/other/a.ts" = "../other/a.ts" := by decide
example : isWithinDirectory "/p/src/b.ts" "/p/src" = true := by decide
example : isWithinDirectory "/p/other/a.ts" "/p/src" = false := by decide
example : dedupFirst ["a", "b", "a"] = ["a", "b"] := by decide

/-! ### Recipe data model

TemplatePreviewRecipe fields distinguish the JavaScript states undefined,
null and present, because mergeRecipes and resolveMaybeFactory treat them
differently. Values that the loader never inspects (template data, helper
callables, processor callables) are represented by opaque numeric tags.
A field whose author-supplied value is a factory function is modeled by
the awaited result of invoking it with the ProcessingContext. -/

deriving instance DecidableEq for Except

/-- A JavaScript value that is undefined, null, or a proper value. -/
inductive JsOpt (A : Type) where
  | undef
  | null
  | val (v : A)
deriving DecidableEq, Repr

/-- A raw recipe field: undefined, null, a direct value, or a factory
function modeled by its awaited result. -/
inductive FieldVal (A : Type) where
  | undef
  | null
  | val (v : A)
  | fn (result : JsOpt A)
deriving DecidableEq, Repr

/-- A raw title field: only strings survive the inline-recipe filter. -/
inductive JsStr where
  | undef
  | null
  | strVal (s : String)
  | nonStr
deriving DecidableEq, Repr

/-- A raw processor field: only functions survive the inline-recipe
filter; the tag identifies the callable opaquely. -/
inductive JsFn where
  | undef
  | null
  | fnVal (tag : Nat)
  | nonFn
deriving DecidableEq, Repr

/-- The runtime value found under one name of a partials mapping. The TS
type says string or file reference, but the loader handles arbitrary
runtime values: objects carrying a file key are file references (the file
value is an optional string, none standing for a present-but-nullish
file), objects without one and primitives are coerced to strings. -/
inductive PartialDef where
  | undef
  | null
  | str (s : String)
  | num (n : Int)
  | boolv (b : Bool)
  | objFile (file : Option String) (encoding : Option String)
  | objOther
deriving DecidableEq, Repr

/-- Helper mappings are opaque name-to-callable records. -/
abbrev HelperMap := List (String × Nat)

/-- Partials mappings as ordered name-value records. -/
abbrev PartialMap := List (String × PartialDef)

/-- TemplatePreviewRecipe after the inline filtering done by resolveRecipe:
title is a string or undefined, preprocess and postprocess are callables
or undefined, the other fields keep the raw undefined/null/value/function
distinction. -/
structure Recipe where
  title : Option String
  data : FieldVal Nat
  helpers : FieldVal HelperMap
  partials : FieldVal PartialMap
  preprocess : Option Nat
  postprocess : Option Nat
  watchFiles : FieldVal (List String)
deriving DecidableEq, Repr

/-- The all-undefined recipe, the base object the merge starts from. -/
def emptyRecipe : Recipe :=
  { title := none, data := .undef, helpers := .undef, partials := .undef,
    preprocess := none, postprocess := none, watchFiles := .undef }

/-- The raw own fields of an exported object before inline filtering. -/
structure RawFields where
  title : JsStr
  data : FieldVal Nat
  helpers : FieldVal HelperMap
  partials : FieldVal PartialMap
  preprocess : JsFn
  postprocess : JsFn
  watchFiles : FieldVal (List String)
deriving DecidableEq, Repr

/-- The inline recipe built from the own fields of an exported object:
title only when it is a string, preprocess and postprocess only when they
are functions, everything else passed through unchecked. -/
def inlineRecipeOf (raw : RawFields) : Recipe :=
  { title := match raw.title with | .strVal s => some s | _ => none,
    data := raw.data,
    helpers := raw.helpers,
    partials := raw.partials,
    preprocess := match raw.preprocess with | .fnVal t => some t | _ => none,
    postprocess := match raw.postprocess with | .fnVal t => some t | _ => none,
    watchFiles := raw.watchFiles }

/-- The value exported by a companion module, as resolveRecipe sees it.
nullish covers null, undefined and primitives, all of which resolve to
undefined. fn is a callable, modeled by the awaited result of invoking it.
obj is an object; each of the four nested wrapper keys getPreviewRecipe,
getPreviewConfig, getPreviewData and default carries a presence flag
(false models the key being undefined, which the loop skips without a
recursive call) and a value, and the own recipe fields follow. -/
inductive ExportValue where
  | nullish
  | fn (result : ExportValue)
  | obj (hasGpr : Bool) (gpr : ExportValue)
        (hasGpc : Bool) (gpc : ExportValue)
        (hasGpd : Bool) (gpd : ExportValue)
        (hasDflt : Bool) (dflt : ExportValue)
        (raw : RawFields)
deriving DecidableEq, Repr

/-- Cap on nested resolution, MAX_RESOLUTION_DEPTH of the loader. -/
def MAX_RESOLUTION_DEPTH : Nat := 10

/-- The message of the fatal depth error of resolveRecipe. -/
def depthErrorMessage : String :=
  "Exceeded maximum depth while resolving preview configuration."

/-- Whether a field value overrides during the merge: everything except
undefined and null does. -/
def fvPresent : FieldVal A → Bool
  | .undef => false
  | .null => false
  | _ => true

/-- Shallow merge of one field: the override wins when it is neither
undefined nor null. -/
def mergeField (b o : FieldVal A) : FieldVal A :=
  if fvPresent o then o else b

/-- Shallow merge of an optional field (title, preprocess, postprocess). -/
def mergeOptField (b o : Option A) : Option A :=
  match o with
  | some v => some v
  | none => b

/-- Model of mergeRecipes: absent override keeps the base; otherwise the
base (or the empty recipe) is copied and every key of the override that is
neither undefined nor null replaces the copied one. -/
def mergeRecipes (base : Option Recipe) (override : Option Recipe) : Option Recipe :=
  match override with
  | none => base
  | some o =>
    let b := base.getD emptyRecipe
    some { title := mergeOptField b.title o.title,
           data := mergeField b.data o.data,
           helpers := mergeField b.helpers o.helpers,
           partials := mergeField b.partials o.partials,
           preprocess := mergeOptField b.preprocess o.preprocess,
           postprocess := mergeOptField b.postprocess o.postprocess,
           watchFiles := mergeField b.watchFiles o.watchFiles }

/-- Model of resolveRecipe: a depth beyond the cap is fatal; callables are
invoked and their result recursed into one level deeper; non-objects
resolve to undefined; objects resolve their present nested wrapper keys in
the fixed order getPreviewRecipe, getPreviewConfig, getPreviewData,
default, merging each result onto the accumulator, and finally merge the
inline recipe built from the own fields on top. -/
def resolveRecipe : ExportValue → Nat → Except String (Option Recipe)
  | v, depth =>
    if MAX_RESOLUTION_DEPTH < depth then
      .error depthErrorMessage
    else
      match v with
      | .nullish => .ok none
      | .fn result => resolveRecipe result (depth + 1)
      | .obj hg g hc c hd d hf f raw =>
        (if hg then (resolveRecipe g (depth + 1)).map (fun n => mergeRecipes none n)
          else pure none) >>= fun a1 =>
        (if hc then (resolveRecipe c (depth + 1)).map (fun n => mergeRecipes a1 n)
          else pure a1) >>= fun a2 =>
        (if hd then (resolveRecipe d (depth + 1)).map (fun n => mergeRecipes a2 n)
          else pure a2) >>= fun a3 =>
        (if hf then (resolveRecipe f (depth + 1)).map (fun n => mergeRecipes a3 n)
          else pure a3) >>= fun a4 =>
        pure (mergeRecipes a4 (some (inlineRecipeOf raw)))

/-- The largest depth argument resolveRecipe reaches when started on this
value at depth zero: callables and present nested keys each add a level. -/
def needDepth : ExportValue → Nat
  | .nullish => 0
  | .fn result => 1 + needDepth result
  | .obj hg g hc c hd d hf f _ =>
    max (if hg then 1 + needDepth g else 0)
      (max (if hc then 1 + needDepth c else 0)
        (max (if hd then 1 + needDepth d else 0)
          (if hf then 1 + needDepth f else 0)))

/-- Model of resolveMaybeFactory: callables are invoked and awaited, an
undefined result replaced by the fallback; an undefined or null value is
replaced by the fallback; anything else is used as-is. The result can
only be null when a callable returned null. -/
def resolveMaybeFactory (value : FieldVal A) (fallback : A) : JsOpt A :=
  match value with
  | .fn result =>
    match result with
    | .undef => .val fallback
    | .null => .null
    | .val v => .val v
  | .undef => .val fallback
  | .null => .val fallback
  | .val v => .val v

example :
    resolveRecipe (.fn (.fn .nullish)) 0 = .ok none := by decide
example :
    resolveRecipe (.fn (.fn (.fn (.fn (.fn (.fn (.fn (.fn (.fn (.fn (.fn .nullish))))))))))) 0 =
      .error depthErrorMessage := by decide

theorem ebind_ok {A B : Type} {x : Except String A} {a : A}
    (h : x = .ok a) (k : A → Except String B) : (x >>= k) = k a := by
  subst h; rfl

theorem ebind_err {A B : Type} {x : Except String A} {e : String}
    (h : x = .error e) (k : A → Except String B) : (x >>= k) = .error e := by
  subst h; rfl

theorem emap_ok {A B : Type} {x : Except String A} {a : A}
    (h : x = .ok a) (f : A → B) : (x.map f) = .ok (f a) := by
  subst h; rfl

theorem emap_err {A B : Type} {x : Except String A} {e : String}
    (h : x = .error e) (f : A → B) : (x.map f) = .error e := by
  subst h; rfl

/-- Characterization of one iteration of the nested-key loop of
resolveRecipe: an absent key leaves the accumulator; a present key whose
subtree exceeds the remaining depth budget produces the depth error, and
one within the budget merges onto the accumulator. -/
theorem nestedStep_char (present : Bool) (child : ExportValue) (acc : Option Recipe)
    (depth : Nat) (hdep : ¬ MAX_RESOLUTION_DEPTH < depth)
    (ih : ∀ dd, (MAX_RESOLUTION_DEPTH < dd + needDepth child →
          resolveRecipe child dd = .error depthErrorMessage) ∧
        (dd + needDepth child ≤ MAX_RESOLUTION_DEPTH →
          ∃ r, resolveRecipe child dd = .ok r)) :
    (MAX_RESOLUTION_DEPTH < depth + (if present then 1 + needDepth child else 0) →
        (if present then (resolveRecipe child (depth + 1)).map (fun n => mergeRecipes acc n)
          else pure acc) = .error depthErrorMessage)
  ∧ (depth + (if present then 1 + needDepth child else 0) ≤ MAX_RESOLUTION_DEPTH →
        ∃ a, (if present then (resolveRecipe child (depth + 1)).map (fun n => mergeRecipes acc n)
          else pure acc) = .ok a) := by
  cases present with
  | false =>
    constructor
    · intro hlt
      exfalso
      rw [if_neg (by simp)] at hlt
      omega
    · intro _
      exact ⟨acc, rfl⟩
  | true =>
    constructor
    · intro hlt
      simp only [reduceIte] at hlt ⊢
      exact emap_err ((ih (depth + 1)).1 (by omega)) _
    · intro hle
      simp only [reduceIte] at hle ⊢
      obtain ⟨r, hr⟩ := (ih (depth + 1)).2 (by omega)
      exact ⟨mergeRecipes acc r, emap_ok hr _⟩

/-- resolveRecipe raises the depth error exactly on the values whose
nesting reaches past the cap, and returns normally on all others. -/
theorem resolveRecipe_depth_char :
    ∀ (v : ExportValue) (depth : Nat),
      (MAX_RESOLUTION_DEPTH < depth + needDepth v →
        resolveRecipe v depth = .error depthErrorMessage) ∧
      (depth + needDepth v ≤ MAX_RESOLUTION_DEPTH →
        ∃ r, resolveRecipe v depth = .ok r) := by
  intro v
  induction v with
  | nullish =>
    intro depth
    rw [resolveRecipe]
    constructor
    · intro hlt
      simp only [needDepth] at hlt
      rw [if_pos (by omega)]
    · intro hle
      simp only [needDepth] at hle
      rw [if_neg (by omega)]
      exact ⟨none, rfl⟩
  | fn result ih =>
    intro depth
    rw [resolveRecipe]
    constructor
    · intro hlt
      simp only [needDepth] at hlt
      by_cases hdd : MAX_RESOLUTION_DEPTH < depth
      · rw [if_pos hdd]
      · rw [if_neg hdd]
        exact (ih (depth + 1)).1 (by omega)
    · intro hle
      simp only [needDepth] at hle
      rw [if_neg (by omega)]
      exact (ih (depth + 1)).2 (by omega)
  | obj hg g hc c hdl d hf f raw ihg ihc ihd ihf =>
    intro depth
    by_cases hdd : MAX_RESOLUTION_DEPTH < depth
    · constructor
      · intro _
        rw [resolveRecipe, if_pos hdd]
      · intro hle
        exfalso
        omega
    · have s1 := nestedStep_char hg g none depth hdd ihg
      constructor
      · intro hlt
        simp only [needDepth] at hlt
        rw [resolveRecipe, if_neg hdd]
        by_cases e1 : MAX_RESOLUTION_DEPTH < depth + (if hg then 1 + needDepth g else 0)
        · exact ebind_err (s1.1 e1) _
        · obtain ⟨a1, ha1⟩ := s1.2 (by omega)
          rw [ebind_ok ha1]
          have s2 := nestedStep_char hc c a1 depth hdd ihc
          by_cases e2 : MAX_RESOLUTION_DEPTH < depth + (if hc then 1 + needDepth c else 0)
          · exact ebind_err (s2.1 e2) _
          · obtain ⟨a2, ha2⟩ := s2.2 (by omega)
            rw [ebind_ok ha2]
            have s3 := nestedStep_char hdl d a2 depth hdd ihd
            by_cases e3 : MAX_RESOLUTION_DEPTH < depth + (if hdl then 1 + needDepth d else 0)
            · exact ebind_err (s3.1 e3) _
            · obtain ⟨a3, ha3⟩ := s3.2 (by omega)
              rw [ebind_ok ha3]
              have s4 := nestedStep_char hf f a3 depth hdd ihf
              by_cases e4 : MAX_RESOLUTION_DEPTH < depth + (if hf then 1 + needDepth f else 0)
              · exact ebind_err (s4.1 e4) _
              · exfalso
                have hm : max (if hg then 1 + needDepth g else 0)
                    (max (if hc then 1 + needDepth c else 0)
                      (max (if hdl then 1 + needDepth d else 0)
                        (if hf then 1 + needDepth f else 0))) ≤
                      MAX_RESOLUTION_DEPTH - depth := by
                  refine Nat.max_le.mpr ⟨by omega, Nat.max_le.mpr ⟨by omega,
                    Nat.max_le.mpr ⟨by omega, by omega⟩⟩⟩
                omega
      · intro hle
        simp only [needDepth] at hle
        have hc1 : (if hg then 1 + needDepth g else 0) ≤ MAX_RESOLUTION_DEPTH - depth := by
          have := Nat.le_max_left (if hg then 1 + needDepth g else 0)
            (max (if hc then 1 + needDepth c else 0)
              (max (if hdl then 1 + needDepth d else 0) (if hf then 1 + needDepth f else 0)))
          omega
        have hc2 : (if hc then 1 + needDepth c else 0) ≤ MAX_RESOLUTION_DEPTH - depth := by
          have h1 := Nat.le_max_left (if hc then 1 + needDepth c else 0)
            (max (if hdl then 1 + needDepth d else 0) (if hf then 1 + needDepth f else 0))
          have h2 := Nat.le_max_right (if hg then 1 + needDepth g else 0)
            (max (if hc then 1 + needDepth c else 0)
              (max (if hdl then 1 + needDepth d else 0) (if hf then 1 + needDepth f else 0)))
          omega
        have hc3 : (if hdl then 1 + needDepth d else 0) ≤ MAX_RESOLUTION_DEPTH - depth := by
          have h1 := Nat.le_max_left (if hdl then 1 + needDepth d else 0)
            (if hf then 1 + needDepth f else 0)
          have h2 := Nat.le_max_right (if hc then 1 + needDepth c else 0)
            (max (if hdl then 1 + needDepth d else 0) (if hf then 1 + needDepth f else 0))
          have h3 := Nat.le_max_right (if hg then 1 + needDepth g else 0)
            (max (if hc then 1 + needDepth c else 0)
              (max (if hdl then 1 + needDepth d else 0) (if hf then 1 + needDepth f else 0)))
          omega
        have hc4 : (if hf then 1 + needDepth f else 0) ≤ MAX_RESOLUTION_DEPTH - depth := by
          have h1 := Nat.le_max_right (if hdl then 1 + needDepth d else 0)
            (if hf then 1 + needDepth f else 0)
          have h2 := Nat.le_max_right (if hc then 1 + needDepth c else 0)
            (max (if hdl then 1 + needDepth d else 0) (if hf then 1 + needDepth f else 0))
          have h3 := Nat.le_max_right (if hg then 1 + needDepth g else 0)
            (max (if hc then 1 + needDepth c else 0)
              (max (if hdl then 1 + needDepth d else 0) (if hf then 1 + needDepth f else 0)))
          omega
        rw [resolveRecipe, if_neg hdd]
        obtain ⟨a1, ha1⟩ := (nestedStep_char hg g none depth hdd ihg).2 (by omega)
        rw [ebind_ok ha1]
        obtain ⟨a2, ha2⟩ := (nestedStep_char hc c a1 depth hdd ihc).2 (by omega)
        rw [ebind_ok ha2]
        obtain ⟨a3, ha3⟩ := (nestedStep_char hdl d a2 depth hdd ihd).2 (by omega)
        rw [ebind_ok ha3]
        obtain ⟨a4, ha4⟩ := (nestedStep_char hf f a3 depth hdd ihf).2 (by omega)
        rw [ebind_ok ha4]
        exact ⟨mergeRecipes a4 (some (inlineRecipeOf raw)), rfl⟩

/-! ### Partial resolution and the loader -/

/-- Model of isPartialFileReference: a non-null object carrying a file
key, whatever the value of that key. -/
def isPartialFileReference : PartialDef → Bool
  | .objFile _ _ => true
  | _ => false

/-- JavaScript String() coercion for the runtime values a partial entry
can hold. -/
def jsToString : PartialDef → String
  | .undef => "undefined"
  | .null => "null"
  | .str s => s
  | .num n => toString n
  | .boolv b => if b then "true" else "false"
  | .objFile _ _ => "[object Object]"
  | .objOther => "[object Object]"

/-- Model of resolveRelativeToModule: absolute targets are returned
verbatim, relative ones resolved against the directory of the module. -/
def resolveRelativeToModule (modulePath target : String) : String :=
  if isAbsolute target then target
  else resolvePath (dirname modulePath) target

/-- Model of findOverride: exact key hit first, then the first override
whose normalized key matches. An absent override map is the empty list. -/
def findOverride (overrides : List (String × String)) (normalizedPath : String) :
    Option String :=
  match overrides.lookup normalizedPath with
  | some v => some v
  | none =>
    match overrides.find? (fun kv => normPath kv.1 == normalizedPath) with
    | some kv => some kv.2
    | none => none

/-- The two accumulating records resolvePartials builds. -/
structure PartialsOut where
  contents : List (String × String)
  files : List (String × String)
deriving DecidableEq, Repr

/-- Worker for resolvePartials, walking the entries in order while
accumulating contents and files. The filesystem read is an oracle
returning the text or the error message; the declared or default utf8
encoding only parameterizes that oracle read and is not tracked. -/
def resolvePartialsGo (modulePath : String) (overrides : List (String × String))
    (readFile : String → Except String String) :
    List (String × PartialDef) → List (String × String) → List (String × String) →
    Except String PartialsOut
  | [], contents, files => .ok { contents := contents, files := files }
  | (name, defn) :: rest, contents, files =>
    match defn with
    | .undef => resolvePartialsGo modulePath overrides readFile rest contents files
    | .null => resolvePartialsGo modulePath overrides readFile rest contents files
    | .objFile file _enc =>
      match file with
      | none => .error ("Partial \"" ++ name ++ "\" is missing a file path.")
      | some fileStr =>
        if fileStr == "" then .error ("Partial \"" ++ name ++ "\" is missing a file path.")
        else
          match findOverride overrides (normPath (resolveRelativeToModule modulePath fileStr)) with
          | some ov =>
            resolvePartialsGo modulePath overrides readFile rest
              (contents ++ [(name, ov)])
              (files ++ [(name, normPath (resolveRelativeToModule modulePath fileStr))])
          | none =>
            match readFile (normPath (resolveRelativeToModule modulePath fileStr)) with
            | .ok content =>
              resolvePartialsGo modulePath overrides readFile rest
                (contents ++ [(name, content)])
                (files ++ [(name, normPath (resolveRelativeToModule modulePath fileStr))])
            | .error msg =>
              .error ("Failed to read partial \"" ++ name ++ "\" at " ++
                normPath (resolveRelativeToModule modulePath fileStr) ++ ": " ++ msg)
    | other =>
      resolvePartialsGo modulePath overrides readFile rest
        (contents ++ [(name, jsToString other)]) files

/-- Model of resolvePartials: entries are walked in order; nullish
definitions are skipped; file references must carry a truthy file path,
take an override when one matches the normalized absolute path and read
from disk otherwise, recording the path under files; any other value is
string-coerced inline content. -/
def resolvePartials (partials : PartialMap) (modulePath : String)
    (overrides : List (String × String)) (readFile : String → Except String String) :
    Except String PartialsOut :=
  resolvePartialsGo modulePath overrides readFile partials [] []

/-- The final watch-file computation of loadTemplateRecipe: concatenate
the resolved watch list, the partial file paths and the module
dependencies, deduplicate the raw strings, drop blank entries, and
resolve every non-absolute entry against the directory of the module
(absolute entries are kept verbatim). -/
def computeWatchFiles (resolvedWatchFiles partialFilePaths moduleDependencies : List String)
    (modulePath : String) : List String :=
  let watchEntries := resolvedWatchFiles ++ partialFilePaths ++ moduleDependencies
  ((dedupFirst watchEntries).filter (fun e => !(isBlankStr e))).map
    (fun e => if isAbsolute e then e else resolvePath (dirname modulePath) e)

/-- The ResolvedTemplatePreviewRecipe the loader returns. -/
structure ResolvedRecipe where
  title : Option String
  data : JsOpt Nat
  helpers : JsOpt HelperMap
  partials : List (String × String)
  preprocess : Option Nat
  postprocess : Option Nat
  watchFiles : List String
  partialFiles : List (String × String)
  moduleDependencies : List String
deriving DecidableEq, Repr

/-- Load options: the root-module source override, the per-path partial
source overrides, the per-path module source overrides forwarded to the
module loader, and the workspace folder forwarded to the compiler. -/
structure LoadOptions where
  moduleSource : Option String
  moduleSourceOverrides : List (String × String)
  partialSourceOverrides : List (String × String)
  workspaceFolder : Option String

/-- The external world of one loadTemplateRecipe call: whether the module
file exists on disk, the export value produced by executing the module
from disk, the export value produced by compiling a supplied source
override, the partial-file read oracle, and the dependency set recorded
for the module tree during the load. -/
structure LoadEnv where
  moduleExists : Bool
  diskExports : ExportValue
  overrideExports : String → ExportValue
  readFile : String → Except String String
  moduleDeps : List String

/-- The raw export value loadModuleExports produces: the override source
is compiled when supplied, otherwise the module is executed from disk. -/
def rawExports (env : LoadEnv) (options : LoadOptions) : ExportValue :=
  match options.moduleSource with
  | some src => env.overrideExports src
  | none => env.diskExports

/-- Optional-chaining access to a field of the resolved recipe: undefined
when the whole recipe resolved to undefined. -/
def optField (recipe : Option Recipe) (f : Recipe → FieldVal A) : FieldVal A :=
  match recipe with
  | none => .undef
  | some r => f r

/-- Optional-chaining access to an optional field of the resolved recipe. -/
def optPlain (recipe : Option Recipe) (f : Recipe → Option A) : Option A :=
  match recipe with
  | none => none
  | some r => f r

/-- Nullish coalescing, modeling the double-question-mark defaulting. -/
def jsValOrD (v : JsOpt A) (dflt : A) : A :=
  match v with
  | .val x => x
  | _ => dflt

/-- Model of loadTemplateRecipe: without a source override a missing
module file is a fatal companion-module-not-found error; otherwise the
exports are resolved to a recipe, each recipe field is independently
resolved through resolveMaybeFactory, partials are resolved, and the
final watch list is computed from the resolved watch entries, the partial
file paths and the recorded module dependencies (buildResolved carries the
post-resolution half). Spreading a null watch list raises the iteration
TypeError the runtime would raise. -/
def buildResolved (env : LoadEnv) (modulePath : String) (options : LoadOptions)
    (recipe : Option Recipe) : Except String ResolvedRecipe :=
  match resolvePartials
      (jsValOrD (resolveMaybeFactory (optField recipe (fun r => r.partials)) []) [])
      modulePath options.partialSourceOverrides env.readFile with
  | .error e => .error e
  | .ok partialResolution =>
    match resolveMaybeFactory (optField recipe (fun r => r.watchFiles)) [] with
    | .null => .error "TypeError: resolved watchFiles is not iterable"
    | .undef => .error "TypeError: resolved watchFiles is not iterable"
    | .val watchList =>
      .ok { title := optPlain recipe (fun r => r.title),
            data := resolveMaybeFactory (optField recipe (fun r => r.data)) 0,
            helpers := resolveMaybeFactory (optField recipe (fun r => r.helpers)) [],
            partials := partialResolution.contents,
            preprocess := optPlain recipe (fun r => r.preprocess),
            postprocess := optPlain recipe (fun r => r.postprocess),
            watchFiles := computeWatchFiles watchList
              (partialResolution.files.map (fun kv => kv.2))
              env.moduleDeps modulePath,
            partialFiles := partialResolution.files,
            moduleDependencies := env.moduleDeps }

def loadTemplateRecipe (env : LoadEnv) (modulePath : String) (options : LoadOptions) :
    Except String ResolvedRecipe :=
  if !(options.moduleSource.isSome || env.moduleExists) then
    .error ("Companion module not found: " ++ modulePath)
  else
    match resolveRecipe (rawExports env options) 0 with
    | .error e => .error e
    | .ok recipe => buildResolved env modulePath options recipe

/-! ### TypeScript compiler-context model

Reading and parsing tsconfig.json is done by the TypeScript services and
the filesystem; the model receives the discovered config path and the
successfully parsed compiler options as inputs. The module resolution
cache member is an opaque TypeScript object and is not modeled. -/

/-- The compiler options the model tracks: the rootDir option, the forced
module kind, and an opaque tag standing for every other parsed option. -/
structure COptions where
  rootDir : Option String
  moduleKind : String
  rest : Nat
deriving DecidableEq, Repr

/-- The DEFAULT_COMPILER_OPTIONS constant: no rootDir, CommonJS output. -/
def DEFAULT_COMPILER_OPTIONS : COptions :=
  { rootDir := none, moduleKind := "commonjs", rest := 0 }

/-- A cached compiler context: effective options, base directory, and the
originally declared absolute rootDir when there was one. -/
structure CompilerContext where
  options : COptions
  baseDir : String
  originalRootDir : Option String
deriving DecidableEq, Repr

/-- Map-style insertion into the context cache. -/
def cacheSet (cache : List (String × CompilerContext)) (key : String)
    (ctx : CompilerContext) : List (String × CompilerContext) :=
  (key, ctx) :: cache.filter (fun kv => !(kv.1 == key))

/-- Model of getCompilerContext. Inputs: the file being compiled, the
discovered config path (none when no tsconfig.json was found), the parsed
compiler options of that config (parse errors are fatal before this logic
runs and are not modeled), the workspace folder, and the context cache.
Output: the chosen context and the updated cache. The config branch
checks the cached base context (reusable unless the file falls outside
its original rootDir), then the cached rootless context (reused for any
file), then parses: the module kind is forced to CommonJS, and when a
truthy rootDir is declared and the file lies outside it the rootDir
option alone is dropped and the context is cached under the rootless
key. -/
def getCompilerContext (filePath : String) (configPath : Option String)
    (parsedOptions : COptions) (workspaceFolder : Option String)
    (cache : List (String × CompilerContext)) :
    CompilerContext × List (String × CompilerContext) :=
  match configPath with
  | none =>
    let baseDir := match workspaceFolder with
      | some w => normPath w
      | none => dirname filePath
    let cacheKey := "default::" ++ baseDir
    match cache.lookup cacheKey with
    | some ctx => (ctx, cache)
    | none =>
      let ctx : CompilerContext :=
        { options := DEFAULT_COMPILER_OPTIONS, baseDir := baseDir, originalRootDir := none }
      (ctx, cacheSet cache cacheKey ctx)
  | some cp =>
    let normalizedConfigPath := normPath cp
    let baseDir := dirname normalizedConfigPath
    let baseKey := "config::" ++ normalizedConfigPath
    let rootlessKey := baseKey ++ "::noRootDir"
    let cachedBaseHit : Option CompilerContext :=
      match cache.lookup baseKey with
      | some cb =>
        if (match cb.originalRootDir with
            | none => true
            | some ord => isWithinDirectory filePath ord) then some cb else none
      | none => none
    match cachedBaseHit with
    | some cb => (cb, cache)
    | none =>
      match cache.lookup rootlessKey with
      | some cr => (cr, cache)
      | none =>
        let options0 : COptions := { parsedOptions with moduleKind := "commonjs" }
        match options0.rootDir with
        | some rd =>
          if rd == "" then
            let ctx : CompilerContext :=
              { options := options0, baseDir := baseDir, originalRootDir := none }
            (ctx, cacheSet cache baseKey ctx)
          else
            let originalRootDir := resolvePath baseDir rd
            if isWithinDirectory filePath originalRootDir then
              let ctx : CompilerContext :=
                { options := options0, baseDir := baseDir,
                  originalRootDir := some originalRootDir }
              (ctx, cacheSet cache baseKey ctx)
            else
              let ctx : CompilerContext :=
                { options := { options0 with rootDir := none }, baseDir := baseDir,
                  originalRootDir := some originalRootDir }
              (ctx, cacheSet cache rootlessKey ctx)
        | none =>
          let ctx : CompilerContext :=
            { options := options0, baseDir := baseDir, originalRootDir := none }
          (ctx, cacheSet cache baseKey ctx)

/-! ### Render pipeline model

The Handlebars engine is an external black box: creating a fresh engine,
registering helpers and partials, compiling the processed template and
running it on the data are modeled by one opaque function from the
registrations, the template text and the data to the output text.
Preprocess and postprocess hooks are modeled as string transformers (the
ProcessingContext argument carries no information the model tracks). -/

/-- The recipe fields renderTemplate consumes. -/
structure RenderRecipe (H D : Type) where
  data : Option D
  helpers : List (String × H)
  partials : List (String × String)
  preprocess : Option (String → String)
  postprocess : Option (String → String)

/-- Model of renderTemplate: apply preprocess when present, run the
engine on the processed text with the registered helpers and partials and
the recipe data (an absent data value defaults to the empty object,
modeled by the emptyData argument), then apply postprocess when
present. -/
def renderTemplate (engine : List (String × H) → List (String × String) → String → D → String)
    (emptyData : D) (templateContent : String) (recipe : RenderRecipe H D) : String :=
  let processedTemplate :=
    match recipe.preprocess with
    | some f => f templateContent
    | none => templateContent
  let output := engine recipe.helpers recipe.partials processedTemplate
    (recipe.data.getD emptyData)
  match recipe.postprocess with
  | some g => g output
  | none => output

/-- A postprocess hook that strips a fixed leading string by length. -/
def stripLeading (pfx s : String) : String := String.mk (s.data.drop pfx.data.length)

theorem stripLeading_append (pfx s : String) : stripLeading pfx (pfx ++ s) = s := by
  cases pfx with
  | mk d =>
    cases s with
    | mk e =>
      show String.mk ((d ++ e).drop d.length) = String.mk e
      rw [List.drop_left]

/-! ### Inversion of a successful load -/

/-- buildResolved reads only the partial-read oracle, the partial source
overrides and the recorded dependencies from its environment. -/
theorem buildResolved_congr (env1 env2 : LoadEnv) (modulePath : String)
    (opts1 opts2 : LoadOptions) (recipe : Option Recipe)
    (h1 : env1.readFile = env2.readFile)
    (h2 : opts1.partialSourceOverrides = opts2.partialSourceOverrides)
    (h3 : env1.moduleDeps = env2.moduleDeps) :
    buildResolved env1 modulePath opts1 recipe = buildResolved env2 modulePath opts2 recipe := by
  unfold buildResolved
  rw [h1, h2, h3]

/-- A successful loadTemplateRecipe call determines every field of the
result from the intermediate export resolution, field resolution and
partial resolution values. -/
theorem loadTemplateRecipe_ok_inv {env : LoadEnv} {modulePath : String}
    {options : LoadOptions} {r : ResolvedRecipe}
    (h : loadTemplateRecipe env modulePath options = .ok r) :
    ∃ recipe partialResolution watchList,
      resolveRecipe (rawExports env options) 0 = .ok recipe ∧
      resolveMaybeFactory (optField recipe (fun x => x.watchFiles)) [] = .val watchList ∧
      resolvePartials
        (jsValOrD (resolveMaybeFactory (optField recipe (fun x => x.partials)) []) [])
        modulePath options.partialSourceOverrides env.readFile = .ok partialResolution ∧
      r = { title := optPlain recipe (fun x => x.title),
            data := resolveMaybeFactory (optField recipe (fun x => x.data)) 0,
            helpers := resolveMaybeFactory (optField recipe (fun x => x.helpers)) [],
            partials := partialResolution.contents,
            preprocess := optPlain recipe (fun x => x.preprocess),
            postprocess := optPlain recipe (fun x => x.postprocess),
            watchFiles := computeWatchFiles watchList
              (partialResolution.files.map (fun kv => kv.2))
              env.moduleDeps modulePath,
            partialFiles := partialResolution.files,
            moduleDependencies := env.moduleDeps } := by
  unfold loadTemplateRecipe at h
  split at h
  · exact absurd h (by simp)
  · split at h
    · exact absurd h (by simp)
    · rename_i recipe hrec
      unfold buildResolved at h
      split at h
      · exact absurd h (by simp)
      · rename_i partialResolution hpart
        split at h
        · exact absurd h (by simp)
        · exact absurd h (by simp)
        · rename_i watchList hwatch
          refine ⟨recipe, partialResolution, watchList, hrec, hwatch, hpart, ?_⟩
          cases h
          rfl

/-- Membership in the computed watch list: the images of the non-blank
raw union entries, with absolute entries kept verbatim and relative ones
resolved against the module directory. -/
theorem mem_computeWatchFiles {ws pf deps : List String} {modulePath p : String} :
    p ∈ computeWatchFiles ws pf deps modulePath ↔
    ∃ e, e ∈ ws ++ pf ++ deps ∧ isBlankStr e = false ∧
      p = (if isAbsolute e then e else resolvePath (dirname modulePath) e) := by
  unfold computeWatchFiles
  simp only [List.mem_map, List.mem_filter, mem_dedupFirst, Bool.not_eq_true']
  constructor
  · rintro ⟨e, ⟨he, hb⟩, hp⟩
    exact ⟨e, he, hb, hp.symm⟩
  · rintro ⟨e, he, hb, hp⟩
    exact ⟨e, ⟨he, hb⟩, hp.symm⟩

/-! ### Shared concrete witnesses -/

/-- A minimal external world: the module exists on disk and exports a
value that resolves to no recipe. -/
def wEnv : LoadEnv :=
  { moduleExists := true, diskExports := .nullish,
    overrideExports := fun _ => .nullish,
    readFile := fun _ => .error "ENOENT", moduleDeps := [] }

/-- Options with no overrides. -/
def wOptions : LoadOptions :=
  { moduleSource := none, moduleSourceOverrides := [],
    partialSourceOverrides := [], workspaceFolder := none }

/-- The recipe the loader returns for wEnv and wOptions. -/
def wRecipe : ResolvedRecipe :=
  { title := none, data := .val 0, helpers := .val [], partials := [],
    preprocess := none, postprocess := none, watchFiles := [],
    partialFiles := [], moduleDependencies := [] }

example : loadTemplateRecipe wEnv "/m/mod.js" wOptions = .ok wRecipe := by decide

/-! ### Claim C1 -/

/-- C1 as stated is refuted: with no source override and the module file
absent from disk, loadTemplateRecipe does not return a recipe with empty
fields, it raises the companion-module-not-found error. -/
theorem C1_counterexample :
    loadTemplateRecipe
      { moduleExists := false, diskExports := .nullish,
        overrideExports := fun _ => .nullish,
        readFile := fun _ => .error "ENOENT", moduleDeps := [] }
      "/m/mod.js" wOptions =
      .error "Companion module not found: /m/mod.js" := by decide

/-- C1 amended: when no source override is supplied and the module file
does not exist, loadTemplateRecipe raises the companion-module-not-found
error (the empty default recipe is substituted by the preview manager,
which skips calling the loader when no candidate resolves); when a source
override is supplied the module is treated as present regardless of disk
state and the call behaves exactly as a load of a module whose exports
are the override compilation result. -/
theorem C1_missing_module_amended :
    (∀ (env : LoadEnv) (modulePath : String) (options : LoadOptions),
      options.moduleSource = none → env.moduleExists = false →
      loadTemplateRecipe env modulePath options =
        .error ("Companion module not found: " ++ modulePath)) ∧
    (∀ (env : LoadEnv) (modulePath : String) (options : LoadOptions) (src : String),
      options.moduleSource = some src →
      ∀ b : Bool,
        loadTemplateRecipe { env with moduleExists := b } modulePath options =
        loadTemplateRecipe
          { env with moduleExists := true, diskExports := env.overrideExports src }
          modulePath { options with moduleSource := none }) := by
  constructor
  · intro env modulePath options hms hex
    unfold loadTemplateRecipe
    rw [if_pos]
    simp [hms, hex]
  · intro env modulePath options src hms b
    unfold loadTemplateRecipe
    rw [if_neg (by simp [hms]), if_neg (by simp)]
    unfold rawExports
    simp only [hms]
    cases hr : resolveRecipe (env.overrideExports src) 0 with
    | error e => rfl
    | ok recipe => exact buildResolved_congr _ _ _ _ _ _ rfl rfl rfl

/-- Witness instantiating the amended C1 at concrete inputs. -/
theorem C1_missing_module_amended_witness :
    loadTemplateRecipe
      { moduleExists := false, diskExports := .fn .nullish,
        overrideExports := fun _ => .nullish,
        readFile := fun _ => .error "ENOENT", moduleDeps := [] }
      "/w/a.hbs.js" wOptions =
      .error ("Companion module not found: " ++ "/w/a.hbs.js") :=
  C1_missing_module_amended.1
    { moduleExists := false, diskExports := .fn .nullish,
      overrideExports := fun _ => .nullish,
      readFile := fun _ => .error "ENOENT", moduleDeps := [] }
    "/w/a.hbs.js" wOptions rfl rfl

/-! ### Claim C3 -/

/-- C3: resolveRecipe caps nested resolution at MAX_RESOLUTION_DEPTH
levels. An export whose nesting reaches past the cap makes resolution
end in the fatal depth-exceeded error (the embedded function is total, so
termination is intrinsic), and an export within the cap never produces
that error: it resolves normally. -/
theorem C3_resolution_depth_cap (v : ExportValue) :
    (MAX_RESOLUTION_DEPTH < needDepth v →
      resolveRecipe v 0 = .error depthErrorMessage) ∧
    (needDepth v ≤ MAX_RESOLUTION_DEPTH →
      ∃ r, resolveRecipe v 0 = .ok r) := by
  have h := resolveRecipe_depth_char v 0
  simpa using h

/-- A chain of factory functions of the given length. -/
def deepChain : Nat → ExportValue
  | 0 => .nullish
  | n + 1 => .fn (deepChain n)

/-- Witness applying C3 on both sides of the cap: a chain needing eleven
levels errors out, a chain needing ten resolves. -/
theorem C3_resolution_depth_cap_witness :
    resolveRecipe (deepChain 11) 0 = .error depthErrorMessage ∧
    ∃ r, resolveRecipe (deepChain 10) 0 = .ok r :=
  ⟨(C3_resolution_depth_cap (deepChain 11)).1 (by decide),
   (C3_resolution_depth_cap (deepChain 10)).2 (by decide)⟩

/-! ### Claim C4 -/

/-- C4: each of data, helpers, partials and watchFiles is independently
resolved by resolveMaybeFactory: a callable is invoked (modeled by its
awaited result) and the empty default substituted when it returns
undefined; an absent or null value yields the empty default; any other
value is used as-is. At the loader level, the data and helpers of a
successful result are exactly the resolveMaybeFactory images of the
corresponding resolved-recipe fields with their empty defaults. -/
theorem C4_field_resolution :
    (∀ (A : Type) (fallback : A),
      resolveMaybeFactory FieldVal.undef fallback = .val fallback ∧
      resolveMaybeFactory FieldVal.null fallback = .val fallback ∧
      resolveMaybeFactory (FieldVal.fn .undef) fallback = .val fallback ∧
      (∀ v : A, resolveMaybeFactory (FieldVal.val v) fallback = .val v) ∧
      (∀ v : A, resolveMaybeFactory (FieldVal.fn (.val v)) fallback = .val v)) ∧
    (∀ (env : LoadEnv) (modulePath : String) (options : LoadOptions)
        (r : ResolvedRecipe) (recipe : Option Recipe),
      loadTemplateRecipe env modulePath options = .ok r →
      resolveRecipe (rawExports env options) 0 = .ok recipe →
      r.data = resolveMaybeFactory (optField recipe (fun x => x.data)) 0 ∧
      r.helpers = resolveMaybeFactory (optField recipe (fun x => x.helpers)) []) := by
  constructor
  · intro A fallback
    exact ⟨rfl, rfl, rfl, fun _ => rfl, fun _ => rfl⟩
  · intro env modulePath options r recipe h hrec
    obtain ⟨recipe2, pr, wl, hrec2, _, _, hr⟩ := loadTemplateRecipe_ok_inv h
    have hreq : recipe2 = recipe := by
      rw [hrec] at hrec2
      exact ((Except.ok.injEq _ _).mp hrec2).symm
    subst hreq
    subst hr
    exact ⟨rfl, rfl⟩

/-- Witness applying the loader-level part of C4 to a concrete load. -/
theorem C4_field_resolution_witness :
    wRecipe.data = resolveMaybeFactory (optField none (fun x => x.data)) 0 ∧
    wRecipe.helpers = resolveMaybeFactory (optField none (fun x => x.helpers)) [] :=
  C4_field_resolution.2 wEnv "/m/mod.js" wOptions wRecipe none (by decide) (by decide)

/-! ### Claim C8 -/

/-- C8: for every engine that renders a fixed leading literal (one free
of template syntax) verbatim ahead of the rest of the template, rendering
with a preprocess hook that prepends that literal and a postprocess hook
that strips exactly that literal equals rendering with neither hook, for
every template, data, helpers and partials. -/
theorem C8_roundtrip {H D : Type}
    (engine : List (String × H) → List (String × String) → String → D → String)
    (emptyData : D) (helpers : List (String × H)) (partials : List (String × String))
    (data : Option D) (pfx : String)
    (hengine : ∀ t d, engine helpers partials (pfx ++ t) d =
      pfx ++ engine helpers partials t d)
    (templateContent : String) :
    renderTemplate engine emptyData templateContent
      { data := data, helpers := helpers, partials := partials,
        preprocess := some (fun s => pfx ++ s),
        postprocess := some (fun s => stripLeading pfx s) } =
    renderTemplate engine emptyData templateContent
      { data := data, helpers := helpers, partials := partials,
        preprocess := none, postprocess := none } := by
  unfold renderTemplate
  simp only
  rw [hengine]
  exact stripLeading_append _ _

/-- Witness applying C8 with a concrete verbatim engine and template. -/
theorem C8_roundtrip_witness :
    renderTemplate
      (fun (_ : List (String × Nat)) (_ : List (String × String)) (t : String) (_ : Nat) => t)
      0 "hello \x7b\x7bname\x7d\x7d"
      { data := some 1, helpers := [], partials := [],
        preprocess := some (fun s => "PRE:" ++ s),
        postprocess := some (fun s => stripLeading "PRE:" s) } =
    renderTemplate
      (fun (_ : List (String × Nat)) (_ : List (String × String)) (t : String) (_ : Nat) => t)
      0 "hello \x7b\x7bname\x7d\x7d"
      { data := some 1, helpers := [], partials := [],
        preprocess := none, postprocess := none } :=
  C8_roundtrip _ 0 [] [] (some 1) "PRE:" (fun _ _ => rfl) _

/-! ### Claim C2 -/

/-- Raw fields carrying only a watch list with one absolute but
non-normalized entry and one relative entry. -/
def rawC2 : RawFields :=
  { title := .undef, data := .undef, helpers := .undef, partials := .undef,
    preprocess := .undef, postprocess := .undef,
    watchFiles := .val ["/m/../y", "../y"] }

/-- Environment whose module exports an object declaring rawC2. -/
def envC2 : LoadEnv :=
  { moduleExists := true,
    diskExports := .obj false .nullish false .nullish false .nullish false .nullish rawC2,
    overrideExports := fun _ => .nullish,
    readFile := fun _ => .error "ENOENT", moduleDeps := [] }

/-- The recipe the loader returns for envC2. -/
def rC2 : ResolvedRecipe :=
  { title := none, data := .val 0, helpers := .val [], partials := [],
    preprocess := none, postprocess := none,
    watchFiles := ["/m/../y", "/y"], partialFiles := [], moduleDependencies := [] }

/-- C2 as stated is refuted: the absolute watch entry /m/../y is returned
verbatim although its normalization is /y, so the returned watchFiles is
neither normalized element-wise nor the deduplicated union of normalized
paths (which would be the single path /y). -/
theorem C2_counterexample :
    (loadTemplateRecipe envC2 "/m/mod.js" wOptions).map (fun r => r.watchFiles) =
      .ok ["/m/../y", "/y"] ∧
    ¬ normPath "/m/../y" = "/m/../y" := by decide

/-- C2 amended: deduplication is applied to the raw entries of the union
before path resolution, and each entry that is not blank is then kept
verbatim when absolute (without normalization) or resolved, and thereby
normalized, against the companion-module directory otherwise; granted an
absolute module directory, every element of the returned watchFiles is
absolute, but not necessarily normalized. -/
theorem C2_watch_set_amended :
    (∀ (env : LoadEnv) (modulePath : String) (options : LoadOptions) (r : ResolvedRecipe),
      loadTemplateRecipe env modulePath options = .ok r →
      isAbsolute (dirname modulePath) = true →
      ∀ p ∈ r.watchFiles, isAbsolute p = true) ∧
    (∀ (ws pf deps : List String) (modulePath p : String),
      p ∈ computeWatchFiles ws pf deps modulePath ↔
      ∃ e, e ∈ ws ++ pf ++ deps ∧ isBlankStr e = false ∧
        p = (if isAbsolute e then e else resolvePath (dirname modulePath) e)) := by
  constructor
  · intro env modulePath options r h hdir p hp
    obtain ⟨recipe, pr, wl, _, _, _, hr⟩ := loadTemplateRecipe_ok_inv h
    subst hr
    dsimp only at hp
    rw [mem_computeWatchFiles] at hp
    obtain ⟨e, _, _, hpe⟩ := hp
    by_cases ha : isAbsolute e = true
    · rw [if_pos ha] at hpe
      rw [hpe]
      exact ha
    · rw [if_neg ha] at hpe
      rw [hpe]
      exact isAbsolute_resolvePath _ _ hdir
  · intro ws pf deps modulePath p
    exact mem_computeWatchFiles

/-- Witness applying the amended C2 to the concrete envC2 load: the
returned verbatim entry is indeed absolute. -/
theorem C2_watch_set_amended_witness : isAbsolute "/m/../y" = true :=
  C2_watch_set_amended.1 envC2 "/m/mod.js" wOptions rC2 (by decide) (by decide)
    "/m/../y" (by decide)

/-! ### Lemmas about the partial-resolution walk -/

theorem resolvePartialsGo_acc {modulePath : String} {overrides : List (String × String)}
    {readFile : String → Except String String} :
    ∀ {l : List (String × PartialDef)} {cs fs : List (String × String)} {pr : PartialsOut},
      resolvePartialsGo modulePath overrides readFile l cs fs = .ok pr →
      (∀ x ∈ cs, x ∈ pr.contents) ∧ (∀ y ∈ fs, y ∈ pr.files) := by
  intro l
  induction l with
  | nil =>
    intro cs fs pr h
    rw [resolvePartialsGo] at h
    cases h
    exact ⟨fun x hx => hx, fun y hy => hy⟩
  | cons head rest ih =>
    intro cs fs pr h
    obtain ⟨name, defn⟩ := head
    cases defn with
    | undef =>
      rw [resolvePartialsGo] at h
      exact ih h
    | null =>
      rw [resolvePartialsGo] at h
      exact ih h
    | str s =>
      simp only [resolvePartialsGo] at h
      obtain ⟨h1, h2⟩ := ih h
      exact ⟨fun x hx => h1 _ (List.mem_append_left _ hx), h2⟩
    | num n =>
      simp only [resolvePartialsGo] at h
      obtain ⟨h1, h2⟩ := ih h
      exact ⟨fun x hx => h1 _ (List.mem_append_left _ hx), h2⟩
    | boolv b =>
      simp only [resolvePartialsGo] at h
      obtain ⟨h1, h2⟩ := ih h
      exact ⟨fun x hx => h1 _ (List.mem_append_left _ hx), h2⟩
    | objOther =>
      simp only [resolvePartialsGo] at h
      obtain ⟨h1, h2⟩ := ih h
      exact ⟨fun x hx => h1 _ (List.mem_append_left _ hx), h2⟩
    | objFile file enc =>
      cases file with
      | none =>
        rw [resolvePartialsGo] at h
        exact absurd h (by simp)
      | some fileStr =>
        rw [resolvePartialsGo] at h
        by_cases hfs : (fileStr == "") = true
        · rw [if_pos hfs] at h
          exact absurd h (by simp)
        · rw [if_neg hfs] at h
          split at h
          · obtain ⟨h1, h2⟩ := ih h
            exact ⟨fun x hx => h1 _ (List.mem_append_left _ hx),
                   fun y hy => h2 _ (List.mem_append_left _ hy)⟩
          · split at h
            · obtain ⟨h1, h2⟩ := ih h
              exact ⟨fun x hx => h1 _ (List.mem_append_left _ hx),
                     fun y hy => h2 _ (List.mem_append_left _ hy)⟩
            · exact absurd h (by simp)

/-- Processing one entry of the walk either fails or hands the rest of
the walk accumulators extending the current ones. -/
theorem resolvePartialsGo_cons_inv {modulePath : String}
    {overrides : List (String × String)} {readFile : String → Except String String}
    {hn : String} {dfn : PartialDef} {rest : List (String × PartialDef)}
    {cs fs : List (String × String)} {pr : PartialsOut}
    (h : resolvePartialsGo modulePath overrides readFile ((hn, dfn) :: rest) cs fs = .ok pr) :
    ∃ cs2 fs2, resolvePartialsGo modulePath overrides readFile rest cs2 fs2 = .ok pr := by
  cases dfn with
  | undef =>
    rw [resolvePartialsGo] at h
    exact ⟨cs, fs, h⟩
  | null =>
    rw [resolvePartialsGo] at h
    exact ⟨cs, fs, h⟩
  | str s =>
    simp only [resolvePartialsGo] at h
    exact ⟨_, _, h⟩
  | num n =>
    simp only [resolvePartialsGo] at h
    exact ⟨_, _, h⟩
  | boolv b =>
    simp only [resolvePartialsGo] at h
    exact ⟨_, _, h⟩
  | objOther =>
    simp only [resolvePartialsGo] at h
    exact ⟨_, _, h⟩
  | objFile file enc =>
    cases file with
    | none =>
      rw [resolvePartialsGo] at h
      exact absurd h (by simp)
    | some fileStr =>
      rw [resolvePartialsGo] at h
      by_cases hfs : (fileStr == "") = true
      · rw [if_pos hfs] at h
        exact absurd h (by simp)
      · rw [if_neg hfs] at h
        split at h
        · exact ⟨_, _, h⟩
        · split at h
          · exact ⟨_, _, h⟩
          · exact absurd h (by simp)

/-- A file-backed entry with a matching override contributes the override
text to contents and the normalized absolute path to files. -/
theorem resolvePartialsGo_override_mem {modulePath : String}
    {overrides : List (String × String)} {readFile : String → Except String String}
    {name fileStr text : String} {enc : Option String} :
    ∀ {l : List (String × PartialDef)} {cs fs : List (String × String)} {pr : PartialsOut},
      resolvePartialsGo modulePath overrides readFile l cs fs = .ok pr →
      (name, PartialDef.objFile (some fileStr) enc) ∈ l →
      findOverride overrides (normPath (resolveRelativeToModule modulePath fileStr)) =
        some text →
      (name, text) ∈ pr.contents ∧
      (name, normPath (resolveRelativeToModule modulePath fileStr)) ∈ pr.files := by
  intro l
  induction l with
  | nil =>
    intro cs fs pr h hmem hov
    exact absurd hmem (List.not_mem_nil _)
  | cons head rest ih =>
    intro cs fs pr h hmem hov
    obtain ⟨hn, dfn⟩ := head
    rcases List.mem_cons.mp hmem with heq | hrest
    · cases heq
      rw [resolvePartialsGo] at h
      by_cases hfs : (fileStr == "") = true
      · rw [if_pos hfs] at h
        exact absurd h (by simp)
      · rw [if_neg hfs] at h
        rw [hov] at h
        obtain ⟨h1, h2⟩ := resolvePartialsGo_acc h
        exact ⟨h1 _ (by simp), h2 _ (by simp)⟩
    · obtain ⟨cs2, fs2, h2⟩ := resolvePartialsGo_cons_inv h
      exact ih h2 hrest hov

/-- An entry that is neither nullish nor a file reference contributes its
string coercion to contents. -/
theorem resolvePartialsGo_coerced_mem {modulePath : String}
    {overrides : List (String × String)} {readFile : String → Except String String}
    {name : String} {d : PartialDef} :
    ∀ {l : List (String × PartialDef)} {cs fs : List (String × String)} {pr : PartialsOut},
      resolvePartialsGo modulePath overrides readFile l cs fs = .ok pr →
      (name, d) ∈ l → isPartialFileReference d = false →
      d ≠ PartialDef.undef → d ≠ PartialDef.null →
      (name, jsToString d) ∈ pr.contents := by
  intro l
  induction l with
  | nil =>
    intro cs fs pr h hmem _ _ _
    exact absurd hmem (List.not_mem_nil _)
  | cons head rest ih =>
    intro cs fs pr h hmem hnf hnu hnn
    obtain ⟨hn, dfn⟩ := head
    rcases List.mem_cons.mp hmem with heq | hrest
    · cases heq
      cases d with
      | undef => exact absurd rfl hnu
      | null => exact absurd rfl hnn
      | objFile file enc => exact absurd hnf (by simp [isPartialFileReference])
      | str s =>
        simp only [resolvePartialsGo] at h
        exact (resolvePartialsGo_acc h).1 _ (by simp [jsToString])
      | num n =>
        simp only [resolvePartialsGo] at h
        exact (resolvePartialsGo_acc h).1 _ (by simp [jsToString])
      | boolv b =>
        simp only [resolvePartialsGo] at h
        exact (resolvePartialsGo_acc h).1 _ (by simp [jsToString])
      | objOther =>
        simp only [resolvePartialsGo] at h
        exact (resolvePartialsGo_acc h).1 _ (by simp [jsToString])
    · obtain ⟨cs2, fs2, h2⟩ := resolvePartialsGo_cons_inv h
      exact ih h2 hrest hnf hnu hnn

/-- Key characterization of a successful walk: a name keys files exactly
when the accumulator already had it or some entry with that name is a
file reference, and keys contents exactly when the accumulator already
had it or some entry with that name is neither undefined nor null. -/
theorem resolvePartialsGo_keys {modulePath : String}
    {overrides : List (String × String)} {readFile : String → Except String String} :
    ∀ {l : List (String × PartialDef)} {cs fs : List (String × String)} {pr : PartialsOut},
      resolvePartialsGo modulePath overrides readFile l cs fs = .ok pr →
      (∀ n, n ∈ pr.files.map (fun kv => kv.1) ↔
        (n ∈ fs.map (fun kv => kv.1) ∨
          ∃ d, (n, d) ∈ l ∧ isPartialFileReference d = true)) ∧
      (∀ n, n ∈ pr.contents.map (fun kv => kv.1) ↔
        (n ∈ cs.map (fun kv => kv.1) ∨
          ∃ d, (n, d) ∈ l ∧ d ≠ PartialDef.undef ∧ d ≠ PartialDef.null)) := by
  intro l
  induction l with
  | nil =>
    intro cs fs pr h
    rw [resolvePartialsGo] at h
    cases h
    constructor
    · intro n
      simp
    · intro n
      simp
  | cons head rest ih =>
    intro cs fs pr h
    obtain ⟨hn, dfn⟩ := head
    cases dfn with
    | undef =>
      rw [resolvePartialsGo] at h
      obtain ⟨if1, if2⟩ := ih h
      constructor
      · intro n
        rw [if1 n]
        simp only [List.mem_cons]
        constructor
        · rintro (hk | ⟨d, hd2, hf⟩)
          · exact Or.inl hk
          · exact Or.inr ⟨d, Or.inr hd2, hf⟩
        · rintro (hk | ⟨d, he | hd2, hf⟩)
          · exact Or.inl hk
          · cases he
            simp [isPartialFileReference] at hf
          · exact Or.inr ⟨d, hd2, hf⟩
      · intro n
        rw [if2 n]
        simp only [List.mem_cons]
        constructor
        · rintro (hk | ⟨d, hd2, hf⟩)
          · exact Or.inl hk
          · exact Or.inr ⟨d, Or.inr hd2, hf⟩
        · rintro (hk | ⟨d, he | hd2, hf⟩)
          · exact Or.inl hk
          · cases he
            exact absurd rfl hf.1
          · exact Or.inr ⟨d, hd2, hf⟩
    | null =>
      rw [resolvePartialsGo] at h
      obtain ⟨if1, if2⟩ := ih h
      constructor
      · intro n
        rw [if1 n]
        simp only [List.mem_cons]
        constructor
        · rintro (hk | ⟨d, hd2, hf⟩)
          · exact Or.inl hk
          · exact Or.inr ⟨d, Or.inr hd2, hf⟩
        · rintro (hk | ⟨d, he | hd2, hf⟩)
          · exact Or.inl hk
          · cases he
            simp [isPartialFileReference] at hf
          · exact Or.inr ⟨d, hd2, hf⟩
      · intro n
        rw [if2 n]
        simp only [List.mem_cons]
        constructor
        · rintro (hk | ⟨d, hd2, hf⟩)
          · exact Or.inl hk
          · exact Or.inr ⟨d, Or.inr hd2, hf⟩
        · rintro (hk | ⟨d, he | hd2, hf⟩)
          · exact Or.inl hk
          · cases he
            exact absurd rfl hf.2
          · exact Or.inr ⟨d, hd2, hf⟩
    | str s =>
      simp only [resolvePartialsGo] at h
      obtain ⟨if1, if2⟩ := ih h
      constructor
      · intro n
        rw [if1 n]
        simp only [List.mem_cons]
        constructor
        · rintro (hk | ⟨d, hd2, hf⟩)
          · exact Or.inl hk
          · exact Or.inr ⟨d, Or.inr hd2, hf⟩
        · rintro (hk | ⟨d, he | hd2, hf⟩)
          · exact Or.inl hk
          · cases he
            simp [isPartialFileReference] at hf
          · exact Or.inr ⟨d, hd2, hf⟩
      · intro n
        rw [if2 n]
        simp only [List.mem_cons, List.map_append, List.mem_append]
        constructor
        · rintro ((hk | hk) | ⟨d, hd2, hf⟩)
          · exact Or.inl hk
          · simp only [List.map_cons, List.map_nil, List.mem_singleton] at hk
            exact Or.inr ⟨PartialDef.str s, Or.inl (by rw [hk]), by simp, by simp⟩
          · exact Or.inr ⟨d, Or.inr hd2, hf⟩
        · rintro (hk | ⟨d, he | hd2, hf⟩)
          · exact Or.inl (Or.inl hk)
          · cases he
            exact Or.inl (Or.inr (by simp))
          · exact Or.inr ⟨d, hd2, hf⟩
    | num nv =>
      simp only [resolvePartialsGo] at h
      obtain ⟨if1, if2⟩ := ih h
      constructor
      · intro n
        rw [if1 n]
        simp only [List.mem_cons]
        constructor
        · rintro (hk | ⟨d, hd2, hf⟩)
          · exact Or.inl hk
          · exact Or.inr ⟨d, Or.inr hd2, hf⟩
        · rintro (hk | ⟨d, he | hd2, hf⟩)
          · exact Or.inl hk
          · cases he
            simp [isPartialFileReference] at hf
          · exact Or.inr ⟨d, hd2, hf⟩
      · intro n
        rw [if2 n]
        simp only [List.mem_cons, List.map_append, List.mem_append]
        constructor
        · rintro ((hk | hk) | ⟨d, hd2, hf⟩)
          · exact Or.inl hk
          · simp only [List.map_cons, List.map_nil, List.mem_singleton] at hk
            exact Or.inr ⟨PartialDef.num nv, Or.inl (by rw [hk]), by simp, by simp⟩
          · exact Or.inr ⟨d, Or.inr hd2, hf⟩
        · rintro (hk | ⟨d, he | hd2, hf⟩)
          · exact Or.inl (Or.inl hk)
          · cases he
            exact Or.inl (Or.inr (by simp))
          · exact Or.inr ⟨d, hd2, hf⟩
    | boolv b =>
      simp only [resolvePartialsGo] at h
      obtain ⟨if1, if2⟩ := ih h
      constructor
      · intro n
        rw [if1 n]
        simp only [List.mem_cons]
        constructor
        · rintro (hk | ⟨d, hd2, hf⟩)
          · exact Or.inl hk
          · exact Or.inr ⟨d, Or.inr hd2, hf⟩
        · rintro (hk | ⟨d, he | hd2, hf⟩)
          · exact Or.inl hk
          · cases he
            simp [isPartialFileReference] at hf
          · exact Or.inr ⟨d, hd2, hf⟩
      · intro n
        rw [if2 n]
        simp only [List.mem_cons, List.map_append, List.mem_append]
        constructor
        · rintro ((hk | hk) | ⟨d, hd2, hf⟩)
          · exact Or.inl hk
          · simp only [List.map_cons, List.map_nil, List.mem_singleton] at hk
            exact Or.inr ⟨PartialDef.boolv b, Or.inl (by rw [hk]), by simp, by simp⟩
          · exact Or.inr ⟨d, Or.inr hd2, hf⟩
        · rintro (hk | ⟨d, he | hd2, hf⟩)
          · exact Or.inl (Or.inl hk)
          · cases he
            exact Or.inl (Or.inr (by simp))
          · exact Or.inr ⟨d, hd2, hf⟩
    | objOther =>
      simp only [resolvePartialsGo] at h
      obtain ⟨if1, if2⟩ := ih h
      constructor
      · intro n
        rw [if1 n]
        simp only [List.mem_cons]
        constructor
        · rintro (hk | ⟨d, hd2, hf⟩)
          · exact Or.inl hk
          · exact Or.inr ⟨d, Or.inr hd2, hf⟩
        · rintro (hk | ⟨d, he | hd2, hf⟩)
          · exact Or.inl hk
          · cases he
            simp [isPartialFileReference] at hf
          · exact Or.inr ⟨d, hd2, hf⟩
      · intro n
        rw [if2 n]
        simp only [List.mem_cons, List.map_append, List.mem_append]
        constructor
        · rintro ((hk | hk) | ⟨d, hd2, hf⟩)
          · exact Or.inl hk
          · simp only [List.map_cons, List.map_nil, List.mem_singleton] at hk
            exact Or.inr ⟨PartialDef.objOther, Or.inl (by rw [hk]), by simp, by simp⟩
          · exact Or.inr ⟨d, Or.inr hd2, hf⟩
        · rintro (hk | ⟨d, he | hd2, hf⟩)
          · exact Or.inl (Or.inl hk)
          · cases he
            exact Or.inl (Or.inr (by simp))
          · exact Or.inr ⟨d, hd2, hf⟩
    | objFile file enc =>
      cases file with
      | none =>
        rw [resolvePartialsGo] at h
        exact absurd h (by simp)
      | some fileStr =>
        rw [resolvePartialsGo] at h
        by_cases hfs : (fileStr == "") = true
        · rw [if_pos hfs] at h
          exact absurd h (by simp)
        · rw [if_neg hfs] at h
          have hfinish : ∀ (added : String),
              resolvePartialsGo modulePath overrides readFile rest
                (cs ++ [(hn, added)])
                (fs ++ [(hn, normPath (resolveRelativeToModule modulePath fileStr))]) =
                .ok pr →
              (∀ n, n ∈ pr.files.map (fun kv => kv.1) ↔
                (n ∈ fs.map (fun kv => kv.1) ∨
                  ∃ d, (n, d) ∈ (hn, PartialDef.objFile (some fileStr) enc) :: rest ∧
                    isPartialFileReference d = true)) ∧
              (∀ n, n ∈ pr.contents.map (fun kv => kv.1) ↔
                (n ∈ cs.map (fun kv => kv.1) ∨
                  ∃ d, (n, d) ∈ (hn, PartialDef.objFile (some fileStr) enc) :: rest ∧
                    d ≠ PartialDef.undef ∧ d ≠ PartialDef.null)) := by
            intro added hrec
            obtain ⟨if1, if2⟩ := ih hrec
            constructor
            · intro n
              rw [if1 n]
              simp only [List.mem_cons, List.map_append, List.mem_append]
              constructor
              · rintro ((hk | hk) | ⟨d, hd2, hf⟩)
                · exact Or.inl hk
                · simp only [List.map_cons, List.map_nil, List.mem_singleton] at hk
                  exact Or.inr ⟨PartialDef.objFile (some fileStr) enc,
                    Or.inl (by rw [hk]), by simp [isPartialFileReference]⟩
                · exact Or.inr ⟨d, Or.inr hd2, hf⟩
              · rintro (hk | ⟨d, he | hd2, hf⟩)
                · exact Or.inl (Or.inl hk)
                · cases he
                  exact Or.inl (Or.inr (by simp))
                · exact Or.inr ⟨d, hd2, hf⟩
            · intro n
              rw [if2 n]
              simp only [List.mem_cons, List.map_append, List.mem_append]
              constructor
              · rintro ((hk | hk) | ⟨d, hd2, hf⟩)
                · exact Or.inl hk
                · simp only [List.map_cons, List.map_nil, List.mem_singleton] at hk
                  exact Or.inr ⟨PartialDef.objFile (some fileStr) enc,
                    Or.inl (by rw [hk]), by simp, by simp⟩
                · exact Or.inr ⟨d, Or.inr hd2, hf⟩
              · rintro (hk | ⟨d, he | hd2, hf⟩)
                · exact Or.inl (Or.inl hk)
                · cases he
                  exact Or.inl (Or.inr (by simp))
                · exact Or.inr ⟨d, hd2, hf⟩
          split at h
          · exact hfinish _ h
          · split at h
            · exact hfinish _ h
            · exact absurd h (by simp)

/-- Dropping the nullish entries from the walk changes nothing: they are
skipped silently. -/
theorem resolvePartialsGo_skip_nullish {modulePath : String}
    {overrides : List (String × String)} {readFile : String → Except String String} :
    ∀ (l : List (String × PartialDef)) (cs fs : List (String × String)),
      resolvePartialsGo modulePath overrides readFile
        (l.filter (fun kv => !(kv.2 == PartialDef.undef) && !(kv.2 == PartialDef.null)))
        cs fs =
      resolvePartialsGo modulePath overrides readFile l cs fs := by
  intro l
  induction l with
  | nil =>
    intro cs fs
    rfl
  | cons head rest ih =>
    intro cs fs
    obtain ⟨hn, dfn⟩ := head
    cases dfn with
    | undef =>
      rw [List.filter_cons, if_neg (by simp)]
      rw [resolvePartialsGo]
      exact ih cs fs
    | null =>
      rw [List.filter_cons, if_neg (by simp)]
      rw [resolvePartialsGo]
      exact ih cs fs
    | str s =>
      rw [List.filter_cons, if_pos (by simp)]
      simp only [resolvePartialsGo]
      exact ih _ _
    | num n =>
      rw [List.filter_cons, if_pos (by simp)]
      simp only [resolvePartialsGo]
      exact ih _ _
    | boolv b =>
      rw [List.filter_cons, if_pos (by simp)]
      simp only [resolvePartialsGo]
      exact ih _ _
    | objOther =>
      rw [List.filter_cons, if_pos (by simp)]
      simp only [resolvePartialsGo]
      exact ih _ _
    | objFile file enc =>
      rw [List.filter_cons, if_pos (by simp)]
      cases file with
      | none =>
        rw [resolvePartialsGo, resolvePartialsGo]
      | some fileStr =>
        rw [resolvePartialsGo, resolvePartialsGo]
        by_cases hfs : (fileStr == "") = true
        · rw [if_pos hfs, if_pos hfs]
        · rw [if_neg hfs, if_neg hfs]
          cases hov : findOverride overrides
              (normPath (resolveRelativeToModule modulePath fileStr)) with
          | some ov =>
            simp only [hov]
            exact ih _ _
          | none =>
            simp only [hov]
            cases hrf : readFile (normPath (resolveRelativeToModule modulePath fileStr)) with
            | ok content =>
              simp only [hrf]
              exact ih _ _
            | error msg =>
              simp only [hrf]

/-- Under unique names an association list pins the value of a key. -/
theorem nodup_keys_eq {l : List (String × PartialDef)}
    (h : (l.map (fun kv => kv.1)).Nodup) {n : String} {a b : PartialDef}
    (ha : (n, a) ∈ l) (hb : (n, b) ∈ l) : a = b := by
  induction l with
  | nil => exact absurd ha (List.not_mem_nil _)
  | cons head rest ih =>
    obtain ⟨hn, hd⟩ := head
    rw [List.map_cons, List.nodup_cons] at h
    rcases List.mem_cons.mp ha with hae | har <;>
      rcases List.mem_cons.mp hb with hbe | hbr
    · cases hae; cases hbe; rfl
    · cases hae
      exact absurd (List.mem_map_of_mem (fun kv => kv.1) hbr) h.1
    · cases hbe
      exact absurd (List.mem_map_of_mem (fun kv => kv.1) har) h.1
    · exact ih h.2 har hbr

/-! ### Claim C5 -/

/-- C5: a file-backed partial whose normalized resolved absolute path has
a source override (matched exactly or after normalizing the override key,
per findOverride) uses the override text verbatim as content instead of a
disk read, and the resolved path still appears in partialFiles; at the
loader level, every absolute partialFiles path of a successful load
appears in the returned watchFiles. -/
theorem C5_partial_source_overrides :
    (∀ (partials : PartialMap) (modulePath : String)
        (overrides : List (String × String)) (readFile : String → Except String String)
        (pr : PartialsOut) (name fileStr text : String) (enc : Option String),
      resolvePartials partials modulePath overrides readFile = .ok pr →
      (name, PartialDef.objFile (some fileStr) enc) ∈ partials →
      findOverride overrides (normPath (resolveRelativeToModule modulePath fileStr)) =
        some text →
      (name, text) ∈ pr.contents ∧
      (name, normPath (resolveRelativeToModule modulePath fileStr)) ∈ pr.files) ∧
    (∀ (env : LoadEnv) (modulePath : String) (options : LoadOptions) (r : ResolvedRecipe)
        (name np : String),
      loadTemplateRecipe env modulePath options = .ok r →
      (name, np) ∈ r.partialFiles → isAbsolute np = true →
      np ∈ r.watchFiles) := by
  constructor
  · intro partials modulePath overrides readFile pr name fileStr text enc h hmem hov
    exact resolvePartialsGo_override_mem h hmem hov
  · intro env modulePath options r name np h hmem hab
    obtain ⟨recipe, pr, wl, _, _, _, hr⟩ := loadTemplateRecipe_ok_inv h
    subst hr
    dsimp only at hmem ⊢
    rw [mem_computeWatchFiles]
    refine ⟨np, ?_, not_isBlankStr_of_isAbsolute hab, (if_pos hab).symm⟩
    exact List.mem_append_left _
      (List.mem_append_right _ (List.mem_map_of_mem (fun kv => kv.2) hmem))

/-- The error-only read oracle: no partial is ever read from disk. -/
def rfErr : String → Except String String := fun _ => Except.error "ENOENT"

/-- Witness applying C5 to a concrete override hit: the partial p
declared as ./x.hbs next to /m/mod.js takes the override text for the
normalized path /m/x.hbs although the disk read always fails. -/
theorem C5_partial_source_overrides_witness :
    ("p", "OVR") ∈
      (PartialsOut.mk [("p", "OVR")] [("p", "/m/x.hbs")]).contents ∧
    ("p", normPath (resolveRelativeToModule "/m/mod.js" "./x.hbs")) ∈
      (PartialsOut.mk [("p", "OVR")] [("p", "/m/x.hbs")]).files :=
  C5_partial_source_overrides.1
    [("p", PartialDef.objFile (some "./x.hbs") none)] "/m/mod.js"
    [("/m/x.hbs", "OVR")] rfErr
    (PartialsOut.mk [("p", "OVR")] [("p", "/m/x.hbs")])
    "p" "./x.hbs" "OVR" none (by decide) (by decide) (by decide)

/-! ### Claim C6 -/

/-- C6: on a successful resolution, a name keys partialFiles exactly when
one of its definitions is a file reference, and every partialFiles key
also keys partials, so the two maps have identical key sets restricted to
the file-backed entries while inline definitions key partials only. -/
theorem C6_partialFiles_keys :
    ∀ (partials : PartialMap) (modulePath : String)
      (overrides : List (String × String)) (readFile : String → Except String String)
      (pr : PartialsOut),
      resolvePartials partials modulePath overrides readFile = .ok pr →
      (∀ n, n ∈ pr.files.map (fun kv => kv.1) ↔
        ∃ d, (n, d) ∈ partials ∧ isPartialFileReference d = true) ∧
      (∀ n, n ∈ pr.files.map (fun kv => kv.1) → n ∈ pr.contents.map (fun kv => kv.1)) := by
  intro partials modulePath overrides readFile pr h
  obtain ⟨if1, if2⟩ := resolvePartialsGo_keys h
  constructor
  · intro n
    rw [if1 n]
    simp
  · intro n hn
    rw [if1 n] at hn
    rw [if2 n]
    rcases hn with hk | ⟨d, hd2, hf⟩
    · simp at hk
    · refine Or.inr ⟨d, hd2, ?_, ?_⟩ <;>
        (cases d <;> simp_all [isPartialFileReference])

/-- Witness applying C6 to a mixed inline and file-backed mapping. -/
theorem C6_partialFiles_keys_witness :
    ("b" ∈ (PartialsOut.mk [("a", "hi"), ("b", "T")] [("b", "/f.hbs")]).files.map
        (fun kv => kv.1) ↔
      ∃ d, ("b", d) ∈ [("a", PartialDef.str "hi"),
        ("b", PartialDef.objFile (some "/f.hbs") none)] ∧
        isPartialFileReference d = true) :=
  (C6_partialFiles_keys
    [("a", PartialDef.str "hi"), ("b", PartialDef.objFile (some "/f.hbs") none)]
    "/m/mod.js" [("/f.hbs", "T")] rfErr
    (PartialsOut.mk [("a", "hi"), ("b", "T")] [("b", "/f.hbs")]) (by decide)).1 "b"

/-! ### Claim C10 -/

/-- C10: an entry whose value is null or undefined is skipped silently
(removing all such entries from the mapping changes nothing, and under
unique names the skipped name keys neither partials nor partialFiles),
while any other value that is not an object with a file property is
coerced to its string representation and used as inline content. -/
theorem C10_nullish_skip_and_coercion :
    (∀ (partials : PartialMap) (modulePath : String)
        (overrides : List (String × String)) (readFile : String → Except String String),
      resolvePartials
        (partials.filter (fun kv =>
          !(kv.2 == PartialDef.undef) && !(kv.2 == PartialDef.null)))
        modulePath overrides readFile =
      resolvePartials partials modulePath overrides readFile) ∧
    (∀ (partials : PartialMap) (modulePath : String)
        (overrides : List (String × String)) (readFile : String → Except String String)
        (pr : PartialsOut) (name : String) (d : PartialDef),
      resolvePartials partials modulePath overrides readFile = .ok pr →
      (name, d) ∈ partials →
      isPartialFileReference d = false → d ≠ .undef → d ≠ .null →
      (name, jsToString d) ∈ pr.contents) ∧
    (∀ (partials : PartialMap) (modulePath : String)
        (overrides : List (String × String)) (readFile : String → Except String String)
        (pr : PartialsOut) (name : String),
      resolvePartials partials modulePath overrides readFile = .ok pr →
      (partials.map (fun kv => kv.1)).Nodup →
      ((name, PartialDef.undef) ∈ partials ∨ (name, PartialDef.null) ∈ partials) →
      name ∉ pr.contents.map (fun kv => kv.1) ∧
        name ∉ pr.files.map (fun kv => kv.1)) := by
  refine ⟨?_, ?_, ?_⟩
  · intro partials modulePath overrides readFile
    exact resolvePartialsGo_skip_nullish partials [] []
  · intro partials modulePath overrides readFile pr name d h hmem hnf hnu hnn
    exact resolvePartialsGo_coerced_mem h hmem hnf hnu hnn
  · intro partials modulePath overrides readFile pr name h hnd hmem
    obtain ⟨if1, if2⟩ := resolvePartialsGo_keys h
    constructor
    · intro hk
      rw [if2 name] at hk
      rcases hk with hk | ⟨d, hd2, hne1, hne2⟩
      · simp at hk
      · rcases hmem with hm | hm
        · exact hne1 (nodup_keys_eq hnd hd2 hm)
        · exact hne2 (nodup_keys_eq hnd hd2 hm)
    · intro hk
      rw [if1 name] at hk
      rcases hk with hk | ⟨d, hd2, hf⟩
      · simp at hk
      · rcases hmem with hm | hm
        · have := nodup_keys_eq hnd hd2 hm
          subst this
          simp [isPartialFileReference] at hf
        · have := nodup_keys_eq hnd hd2 hm
          subst this
          simp [isPartialFileReference] at hf

/-- Witness applying C10: a boolean entry resolves to its string
coercion. -/
theorem C10_nullish_skip_and_coercion_witness :
    ("n", jsToString (PartialDef.boolv true)) ∈
      (PartialsOut.mk [("n", "true")] []).contents :=
  C10_nullish_skip_and_coercion.2.1 [("n", PartialDef.boolv true)] "/m/mod.js" [] rfErr
    (PartialsOut.mk [("n", "true")] []) "n" (PartialDef.boolv true)
    (by decide) (by decide) (by decide) (by decide) (by decide)

/-! ### Claim C7 -/

/-- C7 as stated is refuted through the context cache: after a file
outside the declared rootDir subtree is compiled (caching the rootless
context), a file inside the subtree reuses that cached rootless context,
so it is compiled without the rootDir option although the claim says the
option is kept for in-subtree files. -/
theorem C7_counterexample :
    isWithinDirectory "/p/src/b.ts" (resolvePath "/p" "src") = true ∧
    ((getCompilerContext "/p/src/b.ts" (some "/p/tsconfig.json")
        { rootDir := some "src", moduleKind := "esnext", rest := 7 } none
        (getCompilerContext "/p/other/a.ts" (some "/p/tsconfig.json")
          { rootDir := some "src", moduleKind := "esnext", rest := 7 } none
          []).2).1).options.rootDir = none := by decide

/-- C7 amended: with no context yet cached for the discovered config, a
file outside the declared rootDir subtree is compiled silently with the
parsed options (module kind forced to CommonJS) minus only the rootDir
option, and a file inside the subtree keeps rootDir; however the dropped
variant is cached under a rootless key that is reused for every later
file of the same config, so once any out-of-subtree file has been
compiled, subsequent in-subtree files also receive the rootless context. -/
theorem C7_rootDir_drop_amended :
    ∀ (filePath cp rd : String) (parsed : COptions) (wf : Option String)
      (cache : List (String × CompilerContext)),
      parsed.rootDir = some rd → (rd == "") = false →
      ((cache.lookup ("config::" ++ normPath cp) = none →
        cache.lookup ("config::" ++ normPath cp ++ "::noRootDir") = none →
        (isWithinDirectory filePath (resolvePath (dirname (normPath cp)) rd) = false →
          (getCompilerContext filePath (some cp) parsed wf cache).1.options =
            { rootDir := none, moduleKind := "commonjs", rest := parsed.rest }) ∧
        (isWithinDirectory filePath (resolvePath (dirname (normPath cp)) rd) = true →
          (getCompilerContext filePath (some cp) parsed wf cache).1.options =
            { rootDir := some rd, moduleKind := "commonjs", rest := parsed.rest })) ∧
       (∀ ctx, cache.lookup ("config::" ++ normPath cp) = none →
        cache.lookup ("config::" ++ normPath cp ++ "::noRootDir") = some ctx →
        (getCompilerContext filePath (some cp) parsed wf cache).1 = ctx)) := by
  intro filePath cp rd parsed wf cache hrd hne
  constructor
  · intro hbase hroot
    constructor
    · intro hout
      simp only [getCompilerContext, hbase, hroot, hrd, hne, hout]
      simp
    · intro hin
      simp only [getCompilerContext, hbase, hroot, hrd, hne, hin]
      simp
  · intro ctx hbase hroot
    simp only [getCompilerContext, hbase, hroot]

/-- Witness applying the amended C7 on a fresh cache for a file inside
the declared subtree: rootDir is kept. -/
theorem C7_rootDir_drop_amended_witness :
    (getCompilerContext "/p/src/b.ts" (some "/p/tsconfig.json")
      { rootDir := some "src", moduleKind := "esnext", rest := 7 } none []).1.options =
      { rootDir := some "src", moduleKind := "commonjs", rest := 7 } :=
  ((C7_rootDir_drop_amended "/p/src/b.ts" "/p/tsconfig.json" "src"
    { rootDir := some "src", moduleKind := "esnext", rest := 7 } none []
    rfl (by decide)).1 rfl rfl).2 (by decide)

/-! ### Claim C9 -/

/-- First field value that is neither undefined nor null, scanning in
priority order. -/
def firstPresentFV : List (FieldVal A) → FieldVal A
  | [] => .undef
  | x :: xs => if fvPresent x then x else firstPresentFV xs

/-- First defined optional value, scanning in priority order. -/
def firstSomeOpt : List (Option A) → Option A
  | [] => none
  | x :: xs =>
    match x with
    | some v => some v
    | none => firstSomeOpt xs

/-- The resolution of an object whose four nested keys are all present
and resolve without error is the left-to-right merge of their results
followed by the inline recipe. -/
theorem resolveRecipe_obj_eq (g c d f : ExportValue) (raw : RawFields) (depth : Nat)
    (r1 r2 r3 r4 : Option Recipe)
    (h1 : resolveRecipe g (depth + 1) = .ok r1)
    (h2 : resolveRecipe c (depth + 1) = .ok r2)
    (h3 : resolveRecipe d (depth + 1) = .ok r3)
    (h4 : resolveRecipe f (depth + 1) = .ok r4)
    (hdep : depth ≤ MAX_RESOLUTION_DEPTH) :
    resolveRecipe (.obj true g true c true d true f raw) depth =
      .ok (mergeRecipes (mergeRecipes (mergeRecipes (mergeRecipes (mergeRecipes none r1) r2) r3)
        r4) (some (inlineRecipeOf raw))) := by
  rw [resolveRecipe, if_neg (by omega)]
  simp only [eq_self_iff_true, if_true]
  rw [ebind_ok (emap_ok h1 _), ebind_ok (emap_ok h2 _), ebind_ok (emap_ok h3 _),
    ebind_ok (emap_ok h4 _)]
  rfl

/-- Merging five field values in sequence keeps the last present one. -/
theorem mergeField_chain {A : Type} (x1 x2 x3 x4 x5 : FieldVal A) :
    mergeField (mergeField (mergeField (mergeField (mergeField .undef x1) x2) x3) x4) x5 =
    firstPresentFV [x5, x4, x3, x2, x1] := by
  by_cases h5 : fvPresent x5 <;> by_cases h4 : fvPresent x4 <;>
    by_cases h3 : fvPresent x3 <;> by_cases h2 : fvPresent x2 <;>
    by_cases h1 : fvPresent x1 <;>
    simp [mergeField, firstPresentFV, h1, h2, h3, h4, h5]

/-- Merging five optional values in sequence keeps the last defined one. -/
theorem mergeOptField_chain {A : Type} (x1 x2 x3 x4 x5 : Option A) :
    mergeOptField (mergeOptField (mergeOptField (mergeOptField
      (mergeOptField none x1) x2) x3) x4) x5 =
    firstSomeOpt [x5, x4, x3, x2, x1] := by
  cases x5 <;> cases x4 <;> cases x3 <;> cases x2 <;> cases x1 <;> rfl

theorem getD_data (x : Option Recipe) :
    (x.getD emptyRecipe).data = optField x (fun y => y.data) := by
  cases x <;> rfl

theorem merge_data (acc r : Option Recipe) :
    optField (mergeRecipes acc r) (fun x => x.data) =
    mergeField (optField acc (fun x => x.data)) (optField r (fun x => x.data)) := by
  cases r with
  | none => simp [mergeRecipes, optField, mergeField, fvPresent]
  | some o =>
    cases acc <;> simp [mergeRecipes, optField, mergeField, emptyRecipe]

theorem getD_helpers (x : Option Recipe) :
    (x.getD emptyRecipe).helpers = optField x (fun y => y.helpers) := by
  cases x <;> rfl

theorem merge_helpers (acc r : Option Recipe) :
    optField (mergeRecipes acc r) (fun x => x.helpers) =
    mergeField (optField acc (fun x => x.helpers)) (optField r (fun x => x.helpers)) := by
  cases r with
  | none => simp [mergeRecipes, optField, mergeField, fvPresent]
  | some o =>
    cases acc <;> simp [mergeRecipes, optField, mergeField, emptyRecipe]

theorem getD_partials (x : Option Recipe) :
    (x.getD emptyRecipe).partials = optField x (fun y => y.partials) := by
  cases x <;> rfl

theorem merge_partials (acc r : Option Recipe) :
    optField (mergeRecipes acc r) (fun x => x.partials) =
    mergeField (optField acc (fun x => x.partials)) (optField r (fun x => x.partials)) := by
  cases r with
  | none => simp [mergeRecipes, optField, mergeField, fvPresent]
  | some o =>
    cases acc <;> simp [mergeRecipes, optField, mergeField, emptyRecipe]

theorem getD_watchFiles (x : Option Recipe) :
    (x.getD emptyRecipe).watchFiles = optField x (fun y => y.watchFiles) := by
  cases x <;> rfl

theorem merge_watchFiles (acc r : Option Recipe) :
    optField (mergeRecipes acc r) (fun x => x.watchFiles) =
    mergeField (optField acc (fun x => x.watchFiles)) (optField r (fun x => x.watchFiles)) := by
  cases r with
  | none => simp [mergeRecipes, optField, mergeField, fvPresent]
  | some o =>
    cases acc <;> simp [mergeRecipes, optField, mergeField, emptyRecipe]

theorem getD_title (x : Option Recipe) :
    (x.getD emptyRecipe).title = optPlain x (fun y => y.title) := by
  cases x <;> rfl

theorem merge_title (acc r : Option Recipe) :
    optPlain (mergeRecipes acc r) (fun x => x.title) =
    mergeOptField (optPlain acc (fun x => x.title)) (optPlain r (fun x => x.title)) := by
  cases r with
  | none => simp [mergeRecipes, optPlain, mergeOptField]
  | some o =>
    cases acc <;> simp [mergeRecipes, optPlain, mergeOptField, emptyRecipe]

theorem getD_preprocess (x : Option Recipe) :
    (x.getD emptyRecipe).preprocess = optPlain x (fun y => y.preprocess) := by
  cases x <;> rfl

theorem merge_preprocess (acc r : Option Recipe) :
    optPlain (mergeRecipes acc r) (fun x => x.preprocess) =
    mergeOptField (optPlain acc (fun x => x.preprocess)) (optPlain r (fun x => x.preprocess)) := by
  cases r with
  | none => simp [mergeRecipes, optPlain, mergeOptField]
  | some o =>
    cases acc <;> simp [mergeRecipes, optPlain, mergeOptField, emptyRecipe]

theorem getD_postprocess (x : Option Recipe) :
    (x.getD emptyRecipe).postprocess = optPlain x (fun y => y.postprocess) := by
  cases x <;> rfl

theorem merge_postprocess (acc r : Option Recipe) :
    optPlain (mergeRecipes acc r) (fun x => x.postprocess) =
    mergeOptField (optPlain acc (fun x => x.postprocess)) (optPlain r (fun x => x.postprocess)) := by
  cases r with
  | none => simp [mergeRecipes, optPlain, mergeOptField]
  | some o =>
    cases acc <;> simp [mergeRecipes, optPlain, mergeOptField, emptyRecipe]

/-- The recipe produced for an object export: the nested-key results
merged left to right, topped by the inline recipe. -/
def mergedObjRecipe (r1 r2 r3 r4 : Option Recipe) (raw : RawFields) : Recipe :=
  (mergeRecipes (mergeRecipes (mergeRecipes (mergeRecipes (mergeRecipes none r1) r2) r3) r4)
    (some (inlineRecipeOf raw))).getD emptyRecipe

/-- C9: when an exported object carries all four nested wrapper keys and
inline own fields, the nested keys are resolved and merged in the fixed
order getPreviewRecipe, getPreviewConfig, getPreviewData, default, later
non-null and non-undefined results overriding earlier ones field by
field, and the inline fields (after the title string filter and the
processor function filter) are merged last, overriding every nested
value: every field of the result is the first present value in the
priority order inline, default, getPreviewData, getPreviewConfig,
getPreviewRecipe. -/
theorem C9_nested_merge_order (g c d f : ExportValue) (raw : RawFields) (depth : Nat)
    (r1 r2 r3 r4 : Option Recipe)
    (h1 : resolveRecipe g (depth + 1) = .ok r1)
    (h2 : resolveRecipe c (depth + 1) = .ok r2)
    (h3 : resolveRecipe d (depth + 1) = .ok r3)
    (h4 : resolveRecipe f (depth + 1) = .ok r4)
    (hdep : depth ≤ MAX_RESOLUTION_DEPTH) :
    resolveRecipe (.obj true g true c true d true f raw) depth =
      .ok (some (mergedObjRecipe r1 r2 r3 r4 raw)) ∧
    (mergedObjRecipe r1 r2 r3 r4 raw).data = firstPresentFV [(inlineRecipeOf raw).data, optField r4 (fun x => x.data),
        optField r3 (fun x => x.data), optField r2 (fun x => x.data),
        optField r1 (fun x => x.data)] ∧
    (mergedObjRecipe r1 r2 r3 r4 raw).helpers = firstPresentFV [(inlineRecipeOf raw).helpers, optField r4 (fun x => x.helpers),
        optField r3 (fun x => x.helpers), optField r2 (fun x => x.helpers),
        optField r1 (fun x => x.helpers)] ∧
    (mergedObjRecipe r1 r2 r3 r4 raw).partials = firstPresentFV [(inlineRecipeOf raw).partials, optField r4 (fun x => x.partials),
        optField r3 (fun x => x.partials), optField r2 (fun x => x.partials),
        optField r1 (fun x => x.partials)] ∧
    (mergedObjRecipe r1 r2 r3 r4 raw).watchFiles = firstPresentFV [(inlineRecipeOf raw).watchFiles, optField r4 (fun x => x.watchFiles),
        optField r3 (fun x => x.watchFiles), optField r2 (fun x => x.watchFiles),
        optField r1 (fun x => x.watchFiles)] ∧
    (mergedObjRecipe r1 r2 r3 r4 raw).title = firstSomeOpt [(inlineRecipeOf raw).title,
        optPlain r4 (fun x => x.title), optPlain r3 (fun x => x.title),
        optPlain r2 (fun x => x.title), optPlain r1 (fun x => x.title)] ∧
    (mergedObjRecipe r1 r2 r3 r4 raw).preprocess = firstSomeOpt [(inlineRecipeOf raw).preprocess,
        optPlain r4 (fun x => x.preprocess), optPlain r3 (fun x => x.preprocess),
        optPlain r2 (fun x => x.preprocess), optPlain r1 (fun x => x.preprocess)] ∧
    (mergedObjRecipe r1 r2 r3 r4 raw).postprocess = firstSomeOpt [(inlineRecipeOf raw).postprocess,
        optPlain r4 (fun x => x.postprocess), optPlain r3 (fun x => x.postprocess),
        optPlain r2 (fun x => x.postprocess), optPlain r1 (fun x => x.postprocess)] := by
  have hobj := resolveRecipe_obj_eq g c d f raw depth r1 r2 r3 r4 h1 h2 h3 h4 hdep
  refine ⟨hobj, ?_, ?_, ?_, ?_, ?_, ?_, ?_⟩
  · unfold mergedObjRecipe
    rw [getD_data, merge_data, merge_data, merge_data, merge_data, merge_data]
    exact mergeField_chain _ _ _ _ _
  · unfold mergedObjRecipe
    rw [getD_helpers, merge_helpers, merge_helpers, merge_helpers, merge_helpers, merge_helpers]
    exact mergeField_chain _ _ _ _ _
  · unfold mergedObjRecipe
    rw [getD_partials, merge_partials, merge_partials, merge_partials, merge_partials, merge_partials]
    exact mergeField_chain _ _ _ _ _
  · unfold mergedObjRecipe
    rw [getD_watchFiles, merge_watchFiles, merge_watchFiles, merge_watchFiles, merge_watchFiles, merge_watchFiles]
    exact mergeField_chain _ _ _ _ _
  · unfold mergedObjRecipe
    rw [getD_title, merge_title, merge_title, merge_title, merge_title, merge_title]
    exact mergeOptField_chain _ _ _ _ _
  · unfold mergedObjRecipe
    rw [getD_preprocess, merge_preprocess, merge_preprocess, merge_preprocess, merge_preprocess, merge_preprocess]
    exact mergeOptField_chain _ _ _ _ _
  · unfold mergedObjRecipe
    rw [getD_postprocess, merge_postprocess, merge_postprocess, merge_postprocess, merge_postprocess, merge_postprocess]
    exact mergeOptField_chain _ _ _ _ _

/-- Witness applying C9 with all four nested keys resolving to nothing
and concrete inline fields. -/
theorem C9_nested_merge_order_witness :
    resolveRecipe (.obj true .nullish true .nullish true .nullish true .nullish rawC2) 0 =
      .ok (some (mergedObjRecipe none none none none rawC2)) ∧
    (mergedObjRecipe none none none none rawC2).data = firstPresentFV [(inlineRecipeOf rawC2).data, optField none (fun x => x.data),
        optField none (fun x => x.data), optField none (fun x => x.data),
        optField none (fun x => x.data)] ∧
    (mergedObjRecipe none none none none rawC2).helpers = firstPresentFV [(inlineRecipeOf rawC2).helpers, optField none (fun x => x.helpers),
        optField none (fun x => x.helpers), optField none (fun x => x.helpers),
        optField none (fun x => x.helpers)] ∧
    (mergedObjRecipe none none none none rawC2).partials = firstPresentFV [(inlineRecipeOf rawC2).partials, optField none (fun x => x.partials),
        optField none (fun x => x.partials), optField none (fun x => x.partials),
        optField none (fun x => x.partials)] ∧
    (mergedObjRecipe none none none none rawC2).watchFiles = firstPresentFV [(inlineRecipeOf rawC2).watchFiles, optField none (fun x => x.watchFiles),
        optField none (fun x => x.watchFiles), optField none (fun x => x.watchFiles),
        optField none (fun x => x.watchFiles)] ∧
    (mergedObjRecipe none none none none rawC2).title = firstSomeOpt [(inlineRecipeOf rawC2).title,
        optPlain none (fun x => x.title), optPlain none (fun x => x.title),
        optPlain none (fun x => x.title), optPlain none (fun x => x.title)] ∧
    (mergedObjRecipe none none none none rawC2).preprocess = firstSomeOpt [(inlineRecipeOf rawC2).preprocess,
        optPlain none (fun x => x.preprocess), optPlain none (fun x => x.preprocess),
        optPlain none (fun x => x.preprocess), optPlain none (fun x => x.preprocess)] ∧
    (mergedObjRecipe none none none none rawC2).postprocess = firstSomeOpt [(inlineRecipeOf rawC2).postprocess,
        optPlain none (fun x => x.postprocess), optPlain none (fun x => x.postprocess),
        optPlain none (fun x => x.postprocess), optPlain none (fun x => x.postprocess)] :=
  C9_nested_merge_order .nullish .nullish .nullish .nullish rawC2 0 none none none none
    rfl rfl rfl rfl (by omega)

end HPP
